import Mathlib

/-
Shallow embedding of `scripts/log_analyzer.py` (Python-Security-Log-Analyzer).

The analyzer matches each input line against five anchored regular
expressions (`command_regex`, `user_regex`, `sudo_command_regex`,
`sudo_failure_regex`, `hydra_attack_regex`), normalizes the captured
timestamp with `datetime.strptime`, updates a statistics dictionary,
collects `(timestamp, message)` entries, stable-sorts them by timestamp
and writes a report.

Strings are modelled as `List Char`.  The five regexes use only literal
runs, the character classes `\d`, `\s`, `\S`, `.`, greedy `+`/`*` over a
single class, the fixed shape `\d{2}:\d{2}:\d{2}`, and alternations of
literals, so they are embedded as element lists (`Elem`) interpreted by a
backtracking matcher (`matchElems`) with Python `re.match` semantics:
anchored at the start, repetition is greedy with backtracking,
alternatives are tried left to right, `.` excludes the newline, `\s`
includes it, and the final `$` accepts either the end of the string or a
single trailing newline.  Character classes are modelled over the ASCII
range, which is all the analyzed log lines use.
-/

set_option maxRecDepth 100000
set_option maxHeartbeats 2000000

namespace LogAnalyzer

def L (s : String) : List Char := s.toList

/-- Python whitespace, as used by `str.strip()` and the regex classes
`\s` / `\S` (ASCII range). -/
def pySpace (c : Char) : Bool :=
  c = ' ' || c = '\t' || c = '\n' || c = '\r' || c = '\x0b' || c = '\x0c'

/-- The character classes occurring in the five regexes. -/
inductive CharCls where
  | digit
  | space
  | nonspace
  | dot
deriving DecidableEq, Repr

def clsMatch : CharCls → Char → Bool
  | .digit, c => c.isDigit
  | .space, c => pySpace c
  | .nonspace, c => !pySpace c
  | .dot, c => c != '\n'

/-- One syntactic element of a regex: a literal run, a greedy repetition
of a class (captured or not), the fixed `\d{2}:\d{2}:\d{2}` group, or a
capturing alternation of literals. -/
inductive Elem where
  | lit (s : List Char)
  | many1 (cls : CharCls)
  | many0 (cls : CharCls)
  | cap1 (g : Nat) (cls : CharCls)
  | cap0 (g : Nat) (cls : CharCls)
  | time (g : Nat)
  | alts (g : Nat) (ss : List (List Char))
deriving Repr

/-- Strip a literal from the front of the input. -/
def dropLit : List Char → List Char → Option (List Char)
  | [], input => some input
  | _ :: _, [] => none
  | c :: s, d :: input => if c = d then dropLit s input else none

/-- First alternative that succeeds, in order. -/
def firstSome (f : α → Option β) : List α → Option β
  | [] => none
  | a :: l =>
    match f a with
    | some b => some b
    | none => firstSome f l

/-- The list `[n, n-1, ..., lo]` (empty if `n < lo`): the candidate
lengths a greedy repetition tries, longest first. -/
def lensDown : Nat → Nat → List Nat
  | 0, lo => if lo = 0 then [0] else []
  | n + 1, lo => if lo ≤ n + 1 then (n + 1) :: lensDown n lo else []

/-- Length of the longest prefix of `input` inside the class. -/
def maxRun (cls : CharCls) (input : List Char) : Nat :=
  (input.takeWhile (clsMatch cls)).length

/-- Read the fixed shape `\d{2}:\d{2}:\d{2}`. -/
def readTime : List Char → Option (List Char × List Char)
  | h1 :: h2 :: ':' :: m1 :: m2 :: ':' :: s1 :: s2 :: rest =>
    if h1.isDigit && h2.isDigit && m1.isDigit && m2.isDigit && s1.isDigit && s2.isDigit then
      some ([h1, h2, ':', m1, m2, ':', s1, s2], rest)
    else none
  | _ => none

/-- Python's `$` for `re.match`: position at the end of the string, or
just before one final newline. -/
def atEnd (input : List Char) : Bool := input = [] || input = ['\n']

/-- Backtracking matcher for a whole `^...$` regex: repetitions are
greedy (longest first), alternatives are tried left to right, and the
capture list is returned in group order. -/
def matchElems : List Elem → List Char → Option (List (Nat × List Char))
  | [], input => if atEnd input then some [] else none
  | .lit s :: es, input =>
    match dropLit s input with
    | some rest => matchElems es rest
    | none => none
  | .many1 cls :: es, input =>
    firstSome (fun k => matchElems es (input.drop k)) (lensDown (maxRun cls input) 1)
  | .many0 cls :: es, input =>
    firstSome (fun k => matchElems es (input.drop k)) (lensDown (maxRun cls input) 0)
  | .cap1 g cls :: es, input =>
    firstSome (fun k => (matchElems es (input.drop k)).map (fun caps => (g, input.take k) :: caps))
      (lensDown (maxRun cls input) 1)
  | .cap0 g cls :: es, input =>
    firstSome (fun k => (matchElems es (input.drop k)).map (fun caps => (g, input.take k) :: caps))
      (lensDown (maxRun cls input) 0)
  | .time g :: es, input =>
    match readTime input with
    | some (t, rest) => (matchElems es rest).map (fun caps => (g, t) :: caps)
    | none => none
  | .alts g ss :: es, input =>
    firstSome
      (fun s =>
        match dropLit s input with
        | some rest => (matchElems es rest).map (fun caps => (g, s) :: caps)
        | none => none)
      ss

/-- Shared prefix of all five regexes:
`^(\S+)\s+(\d+)\s+(\d{2}:\d{2}:\d{2})\s+server\s+`. -/
def preElems : List Elem :=
  [.cap1 1 .nonspace, .many1 .space, .cap1 2 .digit, .many1 .space, .time 3,
   .many1 .space, .lit (L "server"), .many1 .space]

/-- `command_regex`:
`^(\S+)\s+(\d+)\s+(\d{2}:\d{2}:\d{2})\s+server\s+sudo\[(\d+)\]:\s+(\S+)\s+:\s+TTY=pts/\d+\s+;\s+PWD=\S+\s+;\s+USER=\S+\s+;\s+COMMAND=(.+)$` -/
def command_regex : List Elem := preElems ++
  [.lit (L "sudo["), .cap1 4 .digit, .lit (L "]:"), .many1 .space,
   .cap1 5 .nonspace, .many1 .space, .lit (L ":"), .many1 .space,
   .lit (L "TTY=pts/"), .many1 .digit, .many1 .space, .lit (L ";"), .many1 .space,
   .lit (L "PWD="), .many1 .nonspace, .many1 .space, .lit (L ";"), .many1 .space,
   .lit (L "USER="), .many1 .nonspace, .many1 .space, .lit (L ";"), .many1 .space,
   .lit (L "COMMAND="), .cap1 6 .dot]

/-- `user_regex`:
`^(\S+)\s+(\d+)\s+(\d{2}:\d{2}:\d{2})\s+server\s+(useradd|userdel|passwd|su|sudo)\[(\d+)\]:\s+(.*)$` -/
def user_regex : List Elem := preElems ++
  [.alts 4 [L "useradd", L "userdel", L "passwd", L "su", L "sudo"],
   .lit (L "["), .cap1 5 .digit, .lit (L "]:"), .many1 .space, .cap0 6 .dot]

/-- `sudo_command_regex`: like `command_regex` but with `USER=root`. -/
def sudo_command_regex : List Elem := preElems ++
  [.lit (L "sudo["), .cap1 4 .digit, .lit (L "]:"), .many1 .space,
   .cap1 5 .nonspace, .many1 .space, .lit (L ":"), .many1 .space,
   .lit (L "TTY=pts/"), .many1 .digit, .many1 .space, .lit (L ";"), .many1 .space,
   .lit (L "PWD="), .many1 .nonspace, .many1 .space, .lit (L ";"), .many1 .space,
   .lit (L "USER=root"), .many1 .space, .lit (L ";"), .many1 .space,
   .lit (L "COMMAND="), .cap1 6 .dot]

/-- `sudo_failure_regex`:
`^(\S+)\s+(\d+)\s+(\d{2}:\d{2}:\d{2})\s+server\s+sudo\[(\d+)\]:\s+pam_unix\(sudo:auth\):\s+authentication\s+failure;\s+logname=\S+\s+uid=\d+\s+euid=\d+\s+tty=\S+\s+ruser=\S*\s+rhost=\S+\s+user=(\S+)$` -/
def sudo_failure_regex : List Elem := preElems ++
  [.lit (L "sudo["), .cap1 4 .digit, .lit (L "]:"), .many1 .space,
   .lit (L "pam_unix(sudo:auth):"), .many1 .space, .lit (L "authentication"), .many1 .space,
   .lit (L "failure;"), .many1 .space,
   .lit (L "logname="), .many1 .nonspace, .many1 .space,
   .lit (L "uid="), .many1 .digit, .many1 .space,
   .lit (L "euid="), .many1 .digit, .many1 .space,
   .lit (L "tty="), .many1 .nonspace, .many1 .space,
   .lit (L "ruser="), .many0 .nonspace, .many1 .space,
   .lit (L "rhost="), .many1 .nonspace, .many1 .space,
   .lit (L "user="), .cap1 5 .nonspace]

/-- `hydra_attack_regex`:
`^(\S+)\s+(\d+)\s+(\d{2}:\d{2}:\d{2})\s+server\s+sshd\[(\d+)\]:\s+(Failed|Accepted)\s+password\s+for\s+(\S+)\s+from\s+(\S+)\s+port\s+(\d+)\s+ssh2$` -/
def hydra_attack_regex : List Elem := preElems ++
  [.lit (L "sshd["), .cap1 4 .digit, .lit (L "]:"), .many1 .space,
   .alts 5 [L "Failed", L "Accepted"], .many1 .space,
   .lit (L "password"), .many1 .space, .lit (L "for"), .many1 .space,
   .cap1 6 .nonspace, .many1 .space, .lit (L "from"), .many1 .space,
   .cap1 7 .nonspace, .many1 .space, .lit (L "port"), .many1 .space,
   .cap1 8 .digit, .many1 .space, .lit (L "ssh2")]

/-- `match.group(g)` on a successful match. -/
def grp (caps : List (Nat × List Char)) (g : Nat) : List Char :=
  match caps.find? (fun p => p.1 == g) with
  | some p => p.2
  | none => []

/-
Timestamp normalization: the analyzer builds
`f"{self.current_year} {g1} {g2} {g3}"` and parses it with
`datetime.strptime(_, "%Y %b %d %H:%M:%S")`, catching `ValueError`.
`%Y` requires four digits; `%b` is a case-insensitive three-letter month
abbreviation; `%d` accepts one or two digits in 1..31; the constructor
then rejects hours above 23, minutes and seconds above 59 (strptime
itself admits seconds 60 and 61, which the `datetime` constructor turns
into the same caught `ValueError`), and days beyond the month's length
in the supplied year.
-/

structure Timestamp where
  year : Nat
  month : Nat
  day : Nat
  hour : Nat
  minute : Nat
  second : Nat
deriving DecidableEq, Repr

def lowerl (s : List Char) : List Char := s.map Char.toLower

def monthOfAbbrev (s : List Char) : Option Nat :=
  let t := lowerl s
  if t = L "jan" then some 1
  else if t = L "feb" then some 2
  else if t = L "mar" then some 3
  else if t = L "apr" then some 4
  else if t = L "may" then some 5
  else if t = L "jun" then some 6
  else if t = L "jul" then some 7
  else if t = L "aug" then some 8
  else if t = L "sep" then some 9
  else if t = L "oct" then some 10
  else if t = L "nov" then some 11
  else if t = L "dec" then some 12
  else none

def digitsToNat (s : List Char) : Nat :=
  s.foldl (fun a c => a * 10 + (c.toNat - '0'.toNat)) 0

/-- `%d` on an all-digit capture followed by a space: one or two digits,
value 1..31. -/
def parseDay (s : List Char) : Option Nat :=
  if s ≠ [] ∧ s.all Char.isDigit ∧ s.length ≤ 2 ∧ 1 ≤ digitsToNat s ∧ digitsToNat s ≤ 31 then
    some (digitsToNat s)
  else none

/-- `%H:%M:%S` on the captured `\d{2}:\d{2}:\d{2}` group, with the
`datetime` constructor's bounds. -/
def parseHMS (s : List Char) : Option (Nat × Nat × Nat) :=
  match s with
  | [h1, h2, ':', m1, m2, ':', s1, s2] =>
    if h1.isDigit && h2.isDigit && m1.isDigit && m2.isDigit && s1.isDigit && s2.isDigit then
      let hh := digitsToNat [h1, h2]
      let mm := digitsToNat [m1, m2]
      let ss := digitsToNat [s1, s2]
      if hh ≤ 23 && mm ≤ 59 && ss ≤ 59 then some (hh, mm, ss) else none
    else none
  | _ => none

def isLeap (y : Nat) : Bool := y % 4 == 0 && (y % 100 != 0 || y % 400 == 0)

def daysInMonth (y m : Nat) : Nat :=
  if m = 2 then (if isLeap y then 29 else 28)
  else if m = 4 ∨ m = 6 ∨ m = 9 ∨ m = 11 then 30
  else 31

def normTimestamp (y : Nat) (g1 g2 g3 : List Char) : Option Timestamp :=
  if 1000 ≤ y ∧ y ≤ 9999 then
    match monthOfAbbrev g1, parseDay g2, parseHMS g3 with
    | some m, some d, some (hh, mm, ss) =>
      if d ≤ daysInMonth y m then some ⟨y, m, d, hh, mm, ss⟩ else none
    | _, _, _ => none
  else none

/-- `str(datetime(...))` with zero microseconds:
`YYYY-MM-DD HH:MM:SS`, zero padded. -/
def padNum (w n : Nat) : List Char :=
  let s := L (toString n)
  List.replicate (w - s.length) '0' ++ s

def dtStr (t : Timestamp) : List Char :=
  padNum 4 t.year ++ L "-" ++ padNum 2 t.month ++ L "-" ++ padNum 2 t.day ++ L " " ++
  padNum 2 t.hour ++ L ":" ++ padNum 2 t.minute ++ L ":" ++ padNum 2 t.second

/-
IP sanitization (`LogAnalyzer.sanitize_ip`): split on `.`; with exactly
four parts keep the first two and mask the last two, otherwise return
the full mask.
-/

/-- Python `str.split(sep)` for a single-character separator: keeps
empty parts, `pySplit sep [] = [[]]`. -/
def pySplit (sep : Char) : List Char → List (List Char)
  | [] => [[]]
  | c :: rest =>
    match pySplit sep rest with
    | a :: parts => if c = sep then [] :: a :: parts else (c :: a) :: parts
    | [] => [[c]]

def sanitize_ip (ip : List Char) : List Char :=
  match pySplit '.' ip with
  | [p0, p1, _, _] => p0 ++ L "." ++ p1 ++ L ".XXX.XXX"
  | _ => L "XXX.XXX.XXX.XXX"

/-
Statistics dictionary and the per-line classifier `parse_line`.
-/

structure Stats where
  total_entries : Nat
  commands : Nat
  user_changes : Nat
  sudo_commands : Nat
  failed_sudo : Nat
  failed_logins : Nat
  successful_logins : Nat
  potential_attacks : Nat
deriving DecidableEq, Repr

def initStats : Stats := ⟨0, 0, 0, 0, 0, 0, 0, 0⟩

def commandLogMsg (ts : Timestamp) (user cmd : List Char) : List Char :=
  L "Command Log - Timestamp: " ++ dtStr ts ++ L ", User: " ++ user ++
  L ", Command: " ++ cmd ++ L "\n"

def userAddMsg (ts : Timestamp) (details : List Char) : List Char :=
  L "User Add - Timestamp: " ++ dtStr ts ++ L ", New user added: " ++ details ++ L "\n"

def userDelMsg (ts : Timestamp) (details : List Char) : List Char :=
  L "User Delete - Timestamp: " ++ dtStr ts ++ L ", User removed: " ++ details ++ L "\n"

def passwdMsg (ts : Timestamp) (details : List Char) : List Char :=
  L "Password Change - Timestamp: " ++ dtStr ts ++ L ", Password changed: " ++ details ++ L "\n"

def sudoAlertMsg (ts : Timestamp) (details : List Char) : List Char :=
  L "ALERT!!!! sudo Command - Timestamp: " ++ dtStr ts ++
  L ", User used sudo command: " ++ details ++ L "\n"

def sudoCmdMsg (ts : Timestamp) (user cmd : List Char) : List Char :=
  L "sudo Command - Timestamp: " ++ dtStr ts ++ L ", User: " ++ user ++
  L ", Command: " ++ cmd ++ L "\n"

def failedSudoMsg (ts : Timestamp) (user : List Char) : List Char :=
  L "ALERT! Failed sudo - Timestamp: " ++ dtStr ts ++ L ", User: " ++ user ++
  L ", Command: sudo command failed\n"

def hydraFailedMsg (ts : Timestamp) (user ip port : List Char) : List Char :=
  L "Hydra Attack - Failed login attempt - Timestamp: " ++ dtStr ts ++ L ", User: " ++ user ++
  L ", IP: " ++ sanitize_ip ip ++ L ", Port: " ++ port ++ L "\n"

def hydraOkMsg (ts : Timestamp) (user ip port : List Char) : List Char :=
  L "Hydra Attack - Successful login - Timestamp: " ++ dtStr ts ++ L ", User: " ++ user ++
  L ", IP: " ++ sanitize_ip ip ++ L ", Port: " ++ port ++ L "\n"

/-- Fifth block of `parse_line` (hydra pattern).  Reached when the four
earlier regexes produced no return. -/
def tryHydra (y : Nat) (line : List Char) (st : Stats) :
    Stats × Option (Timestamp × List Char) :=
  match matchElems hydra_attack_regex line with
  | some m =>
    match normTimestamp y (grp m 1) (grp m 2) (grp m 3) with
    | none => (st, none)
    | some ts =>
      if grp m 5 = L "Failed" then
        ({st with failed_logins := st.failed_logins + 1,
                  potential_attacks := st.potential_attacks + 1},
         some (ts, hydraFailedMsg ts (grp m 6) (grp m 7) (grp m 8)))
      else if grp m 5 = L "Accepted" then
        ({st with successful_logins := st.successful_logins + 1},
         some (ts, hydraOkMsg ts (grp m 6) (grp m 7) (grp m 8)))
      else (st, none)
  | none => (st, none)

/-- Fourth block of `parse_line` (failed sudo pattern). -/
def tryFailedSudo (y : Nat) (line : List Char) (st : Stats) :
    Stats × Option (Timestamp × List Char) :=
  match matchElems sudo_failure_regex line with
  | some m =>
    match normTimestamp y (grp m 1) (grp m 2) (grp m 3) with
    | none => (st, none)
    | some ts =>
      ({st with failed_sudo := st.failed_sudo + 1,
                potential_attacks := st.potential_attacks + 1},
       some (ts, failedSudoMsg ts (grp m 5)))
  | none => tryHydra y line st

/-- Third block of `parse_line` (sudo command with `USER=root`). -/
def trySudoCmd (y : Nat) (line : List Char) (st : Stats) :
    Stats × Option (Timestamp × List Char) :=
  match matchElems sudo_command_regex line with
  | some m =>
    match normTimestamp y (grp m 1) (grp m 2) (grp m 3) with
    | none => (st, none)
    | some ts =>
      ({st with sudo_commands := st.sudo_commands + 1},
       some (ts, sudoCmdMsg ts (grp m 5) (grp m 6)))
  | none => tryFailedSudo y line st

/-- `LogAnalyzer.parse_line`: the five regexes are tried in source
order; a match whose timestamp fails to normalize returns `None`
immediately; in the `user_regex` block `user_changes` is incremented
before the dispatch on the process name, and the `su` case (no branch of
the `if`/`elif` chain) falls through to the remaining regexes with that
increment already applied. -/
def parse_line (y : Nat) (line : List Char) (st : Stats) :
    Stats × Option (Timestamp × List Char) :=
  match matchElems command_regex line with
  | some m =>
    match normTimestamp y (grp m 1) (grp m 2) (grp m 3) with
    | none => (st, none)
    | some ts =>
      ({st with commands := st.commands + 1},
       some (ts, commandLogMsg ts (grp m 5) (grp m 6)))
  | none =>
    match matchElems user_regex line with
    | some m =>
      match normTimestamp y (grp m 1) (grp m 2) (grp m 3) with
      | none => (st, none)
      | some ts =>
        if grp m 4 = L "useradd" then
          ({st with user_changes := st.user_changes + 1}, some (ts, userAddMsg ts (grp m 6)))
        else if grp m 4 = L "userdel" then
          ({st with user_changes := st.user_changes + 1}, some (ts, userDelMsg ts (grp m 6)))
        else if grp m 4 = L "passwd" then
          ({st with user_changes := st.user_changes + 1}, some (ts, passwdMsg ts (grp m 6)))
        else if grp m 4 = L "sudo" then
          ({st with user_changes := st.user_changes + 1,
                    sudo_commands := st.sudo_commands + 1},
           some (ts, sudoAlertMsg ts (grp m 6)))
        else trySudoCmd y line {st with user_changes := st.user_changes + 1}
    | none => trySudoCmd y line st

/-
The analysis loop of `LogAnalyzer.analyze`: each raw line is stripped,
classified, appended to the entry list when an event is produced (also
incrementing `total_entries`), and the entry list is finally sorted by
timestamp with Python's stable `list.sort(key=lambda x: x[0])`.
-/

def pyStrip (s : List Char) : List Char :=
  ((s.dropWhile pySpace).reverse.dropWhile pySpace).reverse

def analyzeStep (y : Nat) (p : Stats × List (Timestamp × List Char)) (raw : List Char) :
    Stats × List (Timestamp × List Char) :=
  match parse_line y (pyStrip raw) p.1 with
  | (st, some e) => ({st with total_entries := st.total_entries + 1}, p.2 ++ [e])
  | (st, none) => (st, p.2)

/-- Statistics and entry list after the reading loop, in input order. -/
def runLines (y : Nat) (lines : List (List Char)) : Stats × List (Timestamp × List Char) :=
  lines.foldl (analyzeStep y) (initStats, [])

/-- Comparison key used by the sort: `datetime` comparison is
lexicographic on the six fields, which on the in-range values produced
by `normTimestamp` agrees with this packed key. -/
def tsKey (t : Timestamp) : Nat :=
  ((((t.year * 13 + t.month) * 32 + t.day) * 24 + t.hour) * 60 + t.minute) * 60 + t.second

def tsLE (a b : Timestamp) : Bool := tsKey a ≤ tsKey b

/-- Stable insertion of one entry after every entry that does not
compare strictly greater: the model of one step of Python's stable
ascending sort. -/
def insertEntry (e : Timestamp × List Char) :
    List (Timestamp × List Char) → List (Timestamp × List Char)
  | [] => [e]
  | f :: rest => if tsLE f.1 e.1 then f :: insertEntry e rest else e :: f :: rest

def sortEntries (l : List (Timestamp × List Char)) : List (Timestamp × List Char) :=
  l.foldl (fun acc e => insertEntry e acc) []

/-- Full analysis pass: statistics plus the chronologically sorted entry
list (the report body is these messages in order). -/
def analyzeLines (y : Nat) (lines : List (List Char)) :
    Stats × List (Timestamp × List Char) :=
  let (st, es) := runLines y lines
  (st, sortEntries es)

/-- The event one raw input line contributes (the classifier's output
does not depend on the running statistics, so the initial statistics can
be used). -/
def lineEvent (y : Nat) (raw : List Char) : Option (Timestamp × List Char) :=
  (parse_line y (pyStrip raw) initStats).2

/-
Concrete input lines used as counterexamples and witnesses.
-/

/-- A PAM-style sudo authentication failure line (grammar 4's shape). -/
def exLineFailedSudo : List Char :=
  L "Mar 3 08:00:00 server sudo[77]: pam_unix(sudo:auth): authentication failure; logname=bob uid=1000 euid=0 tty=/dev/pts/1 ruser= rhost=1.2.3.4 user=bob"

/-- A sudo command-execution line with `USER=root` (grammar 3's shape). -/
def exLineRootCmd : List Char :=
  L "Feb 2 09:00:00 server sudo[42]: bob : TTY=pts/1 ; PWD=/home/bob ; USER=root ; COMMAND=/usr/bin/apt update"

/-- An account-lifecycle line whose process name is `su`. -/
def exLineSu : List Char :=
  L "Jan 2 03:04:05 server su[10]: pam_unix(su:session): session opened for user root"

/-- Scenario A's failed ssh login line. -/
def exLineHydraFailed : List Char :=
  L "Jan 5 10:00:00 server sshd[1234]: Failed password for admin from 203.0.113.50 port 22000 ssh2"

/-- Scenario D's command log line (timestamp `Feb 1 00:00:00`). -/
def exLineCmdD : List Char :=
  L "Feb 1 00:00:00 server sudo[100]: alice : TTY=pts/0 ; PWD=/home ; USER=root ; COMMAND=/bin/ls"

/-- Scenario D's failed-login line (same timestamp). -/
def exLineHydraD : List Char :=
  L "Feb 1 00:00:00 server sshd[200]: Failed password for admin from 1.2.3.4 port 22 ssh2"

/-- A grammar-5-shaped line with the impossible date `Feb 30`. -/
def exLineBadDate : List Char :=
  L "Feb 30 10:00:00 server sshd[1]: Failed password for a from 1.2.3.4 port 22 ssh2"

/-
Specification predicates used to state and prove facts about the
matcher: a declarative decomposition relation for element lists
(`MSeg`), and segment-shape predicates.
-/

def allCls (cls : CharCls) (s : List Char) : Prop :=
  ∀ c ∈ s, clsMatch cls c = true

def isTimeStr (t : List Char) : Prop :=
  ∃ h1 h2 m1 m2 s1 s2, t = [h1, h2, ':', m1, m2, ':', s1, s2] ∧
    h1.isDigit = true ∧ h2.isDigit = true ∧ m1.isDigit = true ∧ m2.isDigit = true ∧
    s1.isDigit = true ∧ s2.isDigit = true

/-- The first character of `s`, if any, is outside the class (the shape
of the boundary after a maximal greedy run). -/
def headFails (p : Char → Bool) (s : List Char) : Prop :=
  match s with
  | [] => True
  | c :: _ => p c = false

/-- Declarative match of an element list against a segment of input: one
possible parse, with its captures.  `matchElems` only returns
decompositions of this shape. -/
inductive MSeg : List Elem → List Char → List (Nat × List Char) → Prop where
  | nil : MSeg [] [] []
  | lit (s : List Char) {es : List Elem} {rest : List Char} {caps : List (Nat × List Char)} :
      MSeg es rest caps → MSeg (.lit s :: es) (s ++ rest) caps
  | many1 {cls : CharCls} {es : List Elem} (run : List Char) {rest : List Char}
      {caps : List (Nat × List Char)} : allCls cls run → run ≠ [] →
      MSeg es rest caps → MSeg (.many1 cls :: es) (run ++ rest) caps
  | many0 {cls : CharCls} {es : List Elem} (run : List Char) {rest : List Char}
      {caps : List (Nat × List Char)} : allCls cls run →
      MSeg es rest caps → MSeg (.many0 cls :: es) (run ++ rest) caps
  | cap1 {g : Nat} {cls : CharCls} {es : List Elem} (run : List Char) {rest : List Char}
      {caps : List (Nat × List Char)} : allCls cls run → run ≠ [] →
      MSeg es rest caps → MSeg (.cap1 g cls :: es) (run ++ rest) ((g, run) :: caps)
  | cap0 {g : Nat} {cls : CharCls} {es : List Elem} (run : List Char) {rest : List Char}
      {caps : List (Nat × List Char)} : allCls cls run →
      MSeg es rest caps → MSeg (.cap0 g cls :: es) (run ++ rest) ((g, run) :: caps)
  | time {g : Nat} {es : List Elem} (t : List Char) {rest : List Char}
      {caps : List (Nat × List Char)} : isTimeStr t →
      MSeg es rest caps → MSeg (.time g :: es) (t ++ rest) ((g, t) :: caps)
  | alts {g : Nat} {ss : List (List Char)} {es : List Elem} (s : List Char) {rest : List Char}
      {caps : List (Nat × List Char)} : s ∈ ss →
      MSeg es rest caps → MSeg (.alts g ss :: es) (s ++ rest) ((g, s) :: caps)

/-
Basic lemmas about the matcher's building blocks.
-/

theorem dropLit_self (s rest : List Char) : dropLit s (s ++ rest) = some rest := by
  induction s with
  | nil => rfl
  | cons c s ih => simpa [dropLit] using ih

theorem dropLit_eq_some : ∀ {s input rest : List Char},
    dropLit s input = some rest → input = s ++ rest := by
  intro s
  induction s with
  | nil => intro input rest h; simpa [dropLit] using h
  | cons c s ih =>
    intro input rest h
    cases input with
    | nil => simp [dropLit] at h
    | cons d input =>
      by_cases hc : c = d
      · subst hc
        simp only [dropLit, if_pos rfl] at h
        simpa using ih h
      · simp [dropLit, hc] at h

theorem dropLit_ne_head {c d : Char} {s t : List Char} (h : c ≠ d) :
    dropLit (c :: s) (d :: t) = none := by
  simp [dropLit, h]

theorem takeWhile_run {p : Char → Bool} : ∀ {a x : List Char},
    (∀ c ∈ a, p c = true) → headFails p x → (a ++ x).takeWhile p = a := by
  intro a
  induction a with
  | nil =>
    intro x _ hx
    cases x with
    | nil => rfl
    | cons c t =>
      unfold headFails at hx
      simp [List.takeWhile_cons, hx]
  | cons c a ih =>
    intro x ha hx
    have hc : p c = true := ha c (by simp)
    simp only [List.cons_append, List.takeWhile_cons, hc]
    simp [ih (fun d hd => ha d (by simp [hd])) hx]

theorem all_take_of_le_takeWhile {p : Char → Bool} : ∀ {l : List Char} {k : Nat},
    k ≤ (l.takeWhile p).length → ∀ c ∈ l.take k, p c = true := by
  intro l
  induction l with
  | nil => intro k _ c hc; simp at hc
  | cons d l ih =>
    intro k h c hc
    cases k with
    | zero => simp at hc
    | succ k =>
      by_cases hd : p d
      · simp only [List.takeWhile_cons, hd, if_true, List.length_cons] at h
        simp only [List.take_succ_cons, List.mem_cons] at hc
        rcases hc with rfl | hc
        · exact hd
        · exact ih (Nat.le_of_succ_le_succ h) c hc
      · simp [List.takeWhile_cons, hd] at h

theorem maxRun_le (cls : CharCls) (l : List Char) : maxRun cls l ≤ l.length := by
  unfold maxRun
  have h := congrArg List.length (List.takeWhile_append_dropWhile (clsMatch cls) l)
  simp only [List.length_append] at h
  omega

theorem maxRun_run {cls : CharCls} {a x : List Char} (ha : ∀ c ∈ a, clsMatch cls c = true)
    (hx : headFails (clsMatch cls) x) : maxRun cls (a ++ x) = a.length := by
  unfold maxRun
  rw [takeWhile_run ha hx]

theorem firstSome_eq_some {f : α → Option β} : ∀ {l : List α} {b : β},
    firstSome f l = some b → ∃ a ∈ l, f a = some b := by
  intro l
  induction l with
  | nil => intro b h; simp [firstSome] at h
  | cons a l ih =>
    intro b h
    unfold firstSome at h
    split at h
    next b2 heq =>
      cases h
      exact ⟨a, by simp, heq⟩
    next heq =>
      obtain ⟨a2, ha2, hfa2⟩ := ih h
      exact ⟨a2, by simp [ha2], hfa2⟩

theorem firstSome_cons_some {f : α → Option β} {a : α} {l : List α} {b : β}
    (h : f a = some b) : firstSome f (a :: l) = some b := by
  simp [firstSome, h]

theorem firstSome_cons_none {f : α → Option β} {a : α} {l : List α}
    (h : f a = none) : firstSome f (a :: l) = firstSome f l := by
  simp [firstSome, h]

theorem lensDown_head {n lo : Nat} (h : lo ≤ n) : ∃ r, lensDown n lo = n :: r := by
  cases n with
  | zero =>
    have : lo = 0 := Nat.le_zero.mp h
    subst this
    exact ⟨[], rfl⟩
  | succ n => exact ⟨lensDown n lo, by simp [lensDown, h]⟩

theorem mem_lensDown : ∀ {n lo k : Nat}, k ∈ lensDown n lo → lo ≤ k ∧ k ≤ n := by
  intro n
  induction n with
  | zero =>
    intro lo k h
    unfold lensDown at h
    split at h
    · simp at h
      omega
    · simp at h
  | succ n ih =>
    intro lo k h
    unfold lensDown at h
    split at h
    · simp at h
      rcases h with rfl | h
      · omega
      · have := ih h
        omega
    · simp at h

theorem readTime_sound : ∀ {input t rest : List Char},
    readTime input = some (t, rest) → input = t ++ rest ∧ isTimeStr t := by
  intro input t rest h
  unfold readTime at h
  split at h
  next h1 h2 m1 m2 s1 s2 r =>
    split at h
    next hd =>
      simp only [Option.some.injEq, Prod.mk.injEq] at h
      obtain ⟨rfl, rfl⟩ := h
      simp only [Bool.and_eq_true] at hd
      refine ⟨by simp, h1, h2, m1, m2, s1, s2, rfl, ?_, ?_, ?_, ?_, ?_, ?_⟩ <;> tauto
    · exact absurd h (by simp)
  · exact absurd h (by simp)

/-- Whatever `matchElems` accepts decomposes as an `MSeg` parse followed
by an accepted terminator (empty, or one final newline). -/
theorem matchElems_sound : ∀ {es : List Elem} {input : List Char} {caps},
    matchElems es input = some caps →
    ∃ body tail, input = body ++ tail ∧ (tail = [] ∨ tail = ['\n']) ∧ MSeg es body caps := by
  intro es
  induction es with
  | nil =>
    intro input caps h
    unfold matchElems at h
    split at h
    next hend =>
      cases h
      refine ⟨[], input, by simp, ?_, MSeg.nil⟩
      unfold atEnd at hend
      simpa using hend
    · cases h
  | cons e es ih =>
    intro input caps h
    cases e with
    | lit s =>
      unfold matchElems at h
      split at h
      next rest hdl =>
        obtain ⟨body, tail, rfl, htail, hm⟩ := ih h
        exact ⟨s ++ body, tail, by rw [dropLit_eq_some hdl, List.append_assoc], htail,
          MSeg.lit s hm⟩
      · cases h
    | many1 cls =>
      unfold matchElems at h
      obtain ⟨k, hk, hfk⟩ := firstSome_eq_some h
      obtain ⟨hk1, hkn⟩ := mem_lensDown hk
      obtain ⟨body, tail, hdrop, htail, hm⟩ := ih hfk
      refine ⟨input.take k ++ body, tail, ?_, htail,
        MSeg.many1 (input.take k) (all_take_of_le_takeWhile hkn) ?_ hm⟩
      · conv_lhs => rw [← List.take_append_drop k input]
        rw [hdrop, List.append_assoc]
      · have hlen : k ≤ input.length := le_trans hkn (maxRun_le cls input)
        intro hnil
        rw [List.take_eq_nil_iff] at hnil
        rcases hnil with rfl | rfl <;> simp at hk1 hlen <;> omega
    | many0 cls =>
      unfold matchElems at h
      obtain ⟨k, hk, hfk⟩ := firstSome_eq_some h
      obtain ⟨_, hkn⟩ := mem_lensDown hk
      obtain ⟨body, tail, hdrop, htail, hm⟩ := ih hfk
      refine ⟨input.take k ++ body, tail, ?_, htail,
        MSeg.many0 (input.take k) (all_take_of_le_takeWhile hkn) hm⟩
      conv_lhs => rw [← List.take_append_drop k input]
      rw [hdrop, List.append_assoc]
    | cap1 g cls =>
      unfold matchElems at h
      obtain ⟨k, hk, hfk⟩ := firstSome_eq_some h
      obtain ⟨hk1, hkn⟩ := mem_lensDown hk
      rw [Option.map_eq_some'] at hfk
      obtain ⟨caps0, hm0, rfl⟩ := hfk
      obtain ⟨body, tail, hdrop, htail, hm⟩ := ih hm0
      refine ⟨input.take k ++ body, tail, ?_, htail,
        MSeg.cap1 (input.take k) (all_take_of_le_takeWhile hkn) ?_ hm⟩
      · conv_lhs => rw [← List.take_append_drop k input]
        rw [hdrop, List.append_assoc]
      · have hlen : k ≤ input.length := le_trans hkn (maxRun_le cls input)
        intro hnil
        rw [List.take_eq_nil_iff] at hnil
        rcases hnil with rfl | rfl <;> simp at hk1 hlen <;> omega
    | cap0 g cls =>
      unfold matchElems at h
      obtain ⟨k, hk, hfk⟩ := firstSome_eq_some h
      obtain ⟨_, hkn⟩ := mem_lensDown hk
      rw [Option.map_eq_some'] at hfk
      obtain ⟨caps0, hm0, rfl⟩ := hfk
      obtain ⟨body, tail, hdrop, htail, hm⟩ := ih hm0
      refine ⟨input.take k ++ body, tail, ?_, htail,
        MSeg.cap0 (input.take k) (all_take_of_le_takeWhile hkn) hm⟩
      conv_lhs => rw [← List.take_append_drop k input]
      rw [hdrop, List.append_assoc]
    | time g =>
      unfold matchElems at h
      split at h
      next t rest hrt =>
        rw [Option.map_eq_some'] at h
        obtain ⟨caps0, hm0, rfl⟩ := h
        obtain ⟨hin, hts⟩ := readTime_sound hrt
        obtain ⟨body, tail, rfl, htail, hm⟩ := ih hm0
        exact ⟨t ++ body, tail, by rw [hin, List.append_assoc], htail, MSeg.time t hts hm⟩
      · cases h
    | alts g ss =>
      unfold matchElems at h
      obtain ⟨s, hs, hfs⟩ := firstSome_eq_some h
      split at hfs
      next rest hdl =>
        rw [Option.map_eq_some'] at hfs
        obtain ⟨caps0, hm0, rfl⟩ := hfs
        obtain ⟨body, tail, rfl, htail, hm⟩ := ih hm0
        exact ⟨s ++ body, tail, by rw [dropLit_eq_some hdl, List.append_assoc], htail,
          MSeg.alts s hs hm⟩
      · cases hfs

theorem isTimeStr_length {t : List Char} (h : isTimeStr t) : t.length = 8 := by
  obtain ⟨h1, h2, m1, m2, s1, s2, rfl, -⟩ := h
  rfl

/-
Greedy evaluation lemmas: when the input is presented as a maximal run
followed by a stopping character, `matchElems` takes exactly that run
(the longest candidate is tried first), so a successful continuation
determines the overall result.
-/

theorem me_lit_pos {s rest : List Char} {es : List Elem} :
    matchElems (.lit s :: es) (s ++ rest) = matchElems es rest := by
  have h : matchElems (.lit s :: es) (s ++ rest) =
      (match dropLit s (s ++ rest) with
       | some r => matchElems es r
       | none => none) := rfl
  rw [h, dropLit_self]

theorem ne_nil_length {tok : List Char} (h : tok ≠ []) : 1 ≤ tok.length := by
  cases tok with
  | nil => exact absurd rfl h
  | cons c t => simp

theorem me_many1_pos {cls : CharCls} {es : List Elem} {tok rest : List Char} {caps}
    (hAll : ∀ c ∈ tok, clsMatch cls c = true) (hne : tok ≠ [])
    (hstop : headFails (clsMatch cls) rest) (hcont : matchElems es rest = some caps) :
    matchElems (.many1 cls :: es) (tok ++ rest) = some caps := by
  unfold matchElems
  rw [maxRun_run hAll hstop]
  obtain ⟨r, hr⟩ := lensDown_head (ne_nil_length hne)
  rw [hr]
  apply firstSome_cons_some
  rw [List.drop_left]
  exact hcont

theorem me_many0_pos {cls : CharCls} {es : List Elem} {tok rest : List Char} {caps}
    (hAll : ∀ c ∈ tok, clsMatch cls c = true)
    (hstop : headFails (clsMatch cls) rest) (hcont : matchElems es rest = some caps) :
    matchElems (.many0 cls :: es) (tok ++ rest) = some caps := by
  unfold matchElems
  rw [maxRun_run hAll hstop]
  obtain ⟨r, hr⟩ := lensDown_head (Nat.zero_le _)
  rw [hr]
  apply firstSome_cons_some
  rw [List.drop_left]
  exact hcont

theorem me_cap1_pos {g : Nat} {cls : CharCls} {es : List Elem} {tok rest : List Char} {caps}
    (hAll : ∀ c ∈ tok, clsMatch cls c = true) (hne : tok ≠ [])
    (hstop : headFails (clsMatch cls) rest) (hcont : matchElems es rest = some caps) :
    matchElems (.cap1 g cls :: es) (tok ++ rest) = some ((g, tok) :: caps) := by
  unfold matchElems
  rw [maxRun_run hAll hstop]
  obtain ⟨r, hr⟩ := lensDown_head (ne_nil_length hne)
  rw [hr]
  apply firstSome_cons_some
  rw [List.drop_left, List.take_left, hcont]
  rfl

theorem me_cap0_pos {g : Nat} {cls : CharCls} {es : List Elem} {tok rest : List Char} {caps}
    (hAll : ∀ c ∈ tok, clsMatch cls c = true)
    (hstop : headFails (clsMatch cls) rest) (hcont : matchElems es rest = some caps) :
    matchElems (.cap0 g cls :: es) (tok ++ rest) = some ((g, tok) :: caps) := by
  unfold matchElems
  rw [maxRun_run hAll hstop]
  obtain ⟨r, hr⟩ := lensDown_head (Nat.zero_le _)
  rw [hr]
  apply firstSome_cons_some
  rw [List.drop_left, List.take_left, hcont]
  rfl

theorem me_time_pos {g : Nat} {es : List Elem} {t rest : List Char} {caps}
    (ht : isTimeStr t) (hcont : matchElems es rest = some caps) :
    matchElems (.time g :: es) (t ++ rest) = some ((g, t) :: caps) := by
  obtain ⟨h1, h2, m1, m2, s1, s2, rfl, d1, d2, d3, d4, d5, d6⟩ := ht
  unfold matchElems
  simp [readTime, d1, d2, d3, d4, d5, d6, hcont]

theorem me_alts_hit {g : Nat} {ss : List (List Char)} {es : List Elem}
    {s input rest : List Char} {caps}
    (hdl : dropLit s input = some rest) (hcont : matchElems es rest = some caps) :
    matchElems (.alts g (s :: ss) :: es) input = some ((g, s) :: caps) := by
  have h : matchElems (.alts g (s :: ss) :: es) input =
      firstSome
        (fun a =>
          match dropLit a input with
          | some r => (matchElems es r).map (fun caps => (g, a) :: caps)
          | none => none)
        (s :: ss) := rfl
  rw [h]
  apply firstSome_cons_some
  show (match dropLit s input with
        | some r => (matchElems es r).map (fun caps => (g, s) :: caps)
        | none => none) = some ((g, s) :: caps)
  rw [hdl]
  show (matchElems es rest).map (fun caps => (g, s) :: caps) = some ((g, s) :: caps)
  rw [hcont]
  rfl

theorem me_alts_skip {g : Nat} {ss : List (List Char)} {es : List Elem} {s input : List Char}
    (h : dropLit s input = none ∨ ∃ rest, dropLit s input = some rest ∧ matchElems es rest = none) :
    matchElems (.alts g (s :: ss) :: es) input = matchElems (.alts g ss :: es) input := by
  have h1 : matchElems (.alts g (s :: ss) :: es) input =
      firstSome
        (fun a =>
          match dropLit a input with
          | some r => (matchElems es r).map (fun caps => (g, a) :: caps)
          | none => none)
        (s :: ss) := rfl
  have h2 : matchElems (.alts g ss :: es) input =
      firstSome
        (fun a =>
          match dropLit a input with
          | some r => (matchElems es r).map (fun caps => (g, a) :: caps)
          | none => none)
        ss := rfl
  rw [h1, h2]
  apply firstSome_cons_none
  show (match dropLit s input with
        | some r => (matchElems es r).map (fun caps => (g, s) :: caps)
        | none => none) = none
  rcases h with h | ⟨rest, hdl, hm⟩
  · rw [h]
  · rw [hdl]
    show (matchElems es rest).map (fun caps => (g, s) :: caps) = none
    rw [hm]
    rfl

/-
Splitting a declarative match of a concatenated element list.
-/

theorem MSeg_append_inv : ∀ {es1 es2 : List Elem} {b : List Char} {c},
    MSeg (es1 ++ es2) b c →
    ∃ b1 b2 c1 c2, b = b1 ++ b2 ∧ c = c1 ++ c2 ∧ MSeg es1 b1 c1 ∧ MSeg es2 b2 c2 := by
  intro es1
  induction es1 with
  | nil =>
    intro es2 b c h
    exact ⟨[], b, [], c, by simp, by simp, MSeg.nil, h⟩
  | cons e es1 ih =>
    intro es2 b c h
    cases h with
    | lit s hm =>
      obtain ⟨b1, b2, c1, c2, rfl, rfl, h1, h2⟩ := ih hm
      exact ⟨s ++ b1, b2, c1, c2, by rw [List.append_assoc], rfl, MSeg.lit s h1, h2⟩
    | many1 run hAll hne hm =>
      obtain ⟨b1, b2, c1, c2, rfl, rfl, h1, h2⟩ := ih hm
      exact ⟨run ++ b1, b2, c1, c2, by rw [List.append_assoc], rfl,
        MSeg.many1 run hAll hne h1, h2⟩
    | many0 run hAll hm =>
      obtain ⟨b1, b2, c1, c2, rfl, rfl, h1, h2⟩ := ih hm
      exact ⟨run ++ b1, b2, c1, c2, by rw [List.append_assoc], rfl, MSeg.many0 run hAll h1, h2⟩
    | cap1 run hAll hne hm =>
      obtain ⟨b1, b2, c1, c2, rfl, rfl, h1, h2⟩ := ih hm
      exact ⟨run ++ b1, b2, _ :: c1, c2, by rw [List.append_assoc], rfl,
        MSeg.cap1 run hAll hne h1, h2⟩
    | cap0 run hAll hm =>
      obtain ⟨b1, b2, c1, c2, rfl, rfl, h1, h2⟩ := ih hm
      exact ⟨run ++ b1, b2, _ :: c1, c2, by rw [List.append_assoc], rfl,
        MSeg.cap0 run hAll h1, h2⟩
    | time t ht hm =>
      obtain ⟨b1, b2, c1, c2, rfl, rfl, h1, h2⟩ := ih hm
      exact ⟨t ++ b1, b2, _ :: c1, c2, by rw [List.append_assoc], rfl, MSeg.time t ht h1, h2⟩
    | alts s hs hm =>
      obtain ⟨b1, b2, c1, c2, rfl, rfl, h1, h2⟩ := ih hm
      exact ⟨s ++ b1, b2, _ :: c1, c2, by rw [List.append_assoc], rfl, MSeg.alts s hs h1, h2⟩

/-
Uniqueness of the token decomposition: two parses of the same string
into a class run followed by a stopping character agree.
-/

theorem run_uniq {p : Char → Bool} {a b x y : List Char} (h : a ++ x = b ++ y)
    (ha : ∀ c ∈ a, p c = true) (hb : ∀ c ∈ b, p c = true)
    (hx : headFails p x) (hy : headFails p y) : a = b ∧ x = y := by
  have h1 : (a ++ x).takeWhile p = a := takeWhile_run ha hx
  have h2 : (b ++ y).takeWhile p = b := takeWhile_run hb hy
  have hab : a = b := by rw [← h1, ← h2, h]
  subst hab
  exact ⟨rfl, List.append_cancel_left h⟩

theorem len_uniq {a b x y : List Char} (h : a ++ x = b ++ y) (hl : a.length = b.length) :
    a = b ∧ x = y :=
  List.append_inj h hl

theorem space_not_nonspace {c : Char} (h : clsMatch .space c = true) :
    clsMatch .nonspace c = false := by
  simp only [clsMatch] at h ⊢
  simp [h]

theorem nonspace_not_space {c : Char} (h : clsMatch .nonspace c = true) :
    clsMatch .space c = false := by
  simp only [clsMatch] at h ⊢
  simpa using h

theorem digit_not_space {c : Char} (h : clsMatch .digit c = true) :
    clsMatch .space c = false := by
  simp only [clsMatch] at h ⊢
  by_contra hc
  simp only [Bool.not_eq_false] at hc
  unfold pySpace at hc
  simp only [Bool.or_eq_true, decide_eq_true_eq] at hc
  rcases hc with ((((rfl | rfl) | rfl) | rfl) | rfl) | rfl <;> simp [Char.isDigit] at h

/-- A nonempty block whose characters all fail the class makes the
following boundary a stopping point, whatever comes after it. -/
theorem headFails_append {p : Char → Bool} {a x : List Char} (hne : a ≠ [])
    (h : ∀ c ∈ a, p c = false) : headFails p (a ++ x) := by
  cases a with
  | nil => exact absurd rfl hne
  | cons c t =>
    show p c = false
    exact h c (by simp)

theorem headFails_cons {p : Char → Bool} {c : Char} {x : List Char} (h : p c = false) :
    headFails p (c :: x) := h

theorem space_not_digit {c : Char} (h : clsMatch .space c = true) :
    clsMatch .digit c = false := by
  simp only [clsMatch] at h ⊢
  unfold pySpace at h
  simp only [Bool.or_eq_true, decide_eq_true_eq] at h
  rcases h with ((((rfl | rfl) | rfl) | rfl) | rfl) | rfl <;> decide

theorem stop_nonspace_of_ws {ws rest : List Char} (hA : allCls .space ws) (hne : ws ≠ []) :
    headFails (clsMatch .nonspace) (ws ++ rest) :=
  headFails_append hne (fun c hc => space_not_nonspace (hA c hc))

theorem stop_space_of_tok {t rest : List Char} (hA : allCls .nonspace t) (hne : t ≠ []) :
    headFails (clsMatch .space) (t ++ rest) :=
  headFails_append hne (fun c hc => nonspace_not_space (hA c hc))

theorem stop_space_of_digits {t rest : List Char} (hA : allCls .digit t) (hne : t ≠ []) :
    headFails (clsMatch .space) (t ++ rest) :=
  headFails_append hne (fun c hc => digit_not_space (hA c hc))

theorem stop_digit_of_ws {ws rest : List Char} (hA : allCls .space ws) (hne : ws ≠ []) :
    headFails (clsMatch .digit) (ws ++ rest) :=
  headFails_append hne (fun c hc => space_not_digit (hA c hc))

theorem stop_space_of_time {t rest : List Char} (hT : isTimeStr t) :
    headFails (clsMatch .space) (t ++ rest) := by
  obtain ⟨h1, h2, m1, m2, s1, s2, rfl, d1, -⟩ := hT
  exact headFails_cons (digit_not_space (show clsMatch .digit h1 = true from d1))

theorem stop_space_of_server (rest : List Char) :
    headFails (clsMatch .space) (L "server" ++ rest) := by
  show clsMatch .space 's' = false
  decide

/-- Inversion of a declarative match of the shared prefix
`(\S+)\s+(\d+)\s+(\d{2}:\d{2}:\d{2})\s+server\s+`. -/
theorem MSeg_pre_inv {b : List Char} {c} (h : MSeg preElems b c) :
    ∃ t1 ws1 t2 ws2 t3 ws3 ws4,
      b = t1 ++ (ws1 ++ (t2 ++ (ws2 ++ (t3 ++ (ws3 ++ (L "server" ++ ws4)))))) ∧
      c = [(1, t1), (2, t2), (3, t3)] ∧
      allCls .nonspace t1 ∧ t1 ≠ [] ∧ allCls .space ws1 ∧ ws1 ≠ [] ∧
      allCls .digit t2 ∧ t2 ≠ [] ∧ allCls .space ws2 ∧ ws2 ≠ [] ∧
      isTimeStr t3 ∧ allCls .space ws3 ∧ ws3 ≠ [] ∧ allCls .space ws4 ∧ ws4 ≠ [] := by
  unfold preElems at h
  cases h with
  | cap1 t1 hA1 hne1 h =>
    cases h with
    | many1 ws1 hAw1 hnw1 h =>
      cases h with
      | cap1 t2 hA2 hne2 h =>
        cases h with
        | many1 ws2 hAw2 hnw2 h =>
          cases h with
          | time t3 hT3 h =>
            cases h with
            | many1 ws3 hAw3 hnw3 h =>
              cases h with
              | lit s h =>
                cases h with
                | many1 ws4 hAw4 hnw4 h =>
                  cases h with
                  | nil =>
                    exact ⟨t1, ws1, t2, ws2, t3, ws3, ws4, by simp [List.append_assoc],
                      rfl, hA1, hne1, hAw1, hnw1, hA2, hne2, hAw2, hnw2, hT3,
                      hAw3, hnw3, hAw4, hnw4⟩

/-- The shared prefix tokenizes a line in only one way: two parses of
the same line agree on all three captures and on where the grammar tail
starts. -/
theorem pre_uniq {r r' : List Char}
    {t1 ws1 t2 ws2 t3 ws3 ws4 t1' ws1' t2' ws2' t3' ws3' ws4' : List Char}
    (heq : t1 ++ (ws1 ++ (t2 ++ (ws2 ++ (t3 ++ (ws3 ++ (L "server" ++ (ws4 ++ r))))))) =
           t1' ++ (ws1' ++ (t2' ++ (ws2' ++ (t3' ++ (ws3' ++ (L "server" ++ (ws4' ++ r'))))))))
    (hA1 : allCls .nonspace t1) (hne1 : t1 ≠ []) (hAw1 : allCls .space ws1) (hnw1 : ws1 ≠ [])
    (hA2 : allCls .digit t2) (hne2 : t2 ≠ []) (hAw2 : allCls .space ws2) (hnw2 : ws2 ≠ [])
    (hT3 : isTimeStr t3) (hAw3 : allCls .space ws3) (hnw3 : ws3 ≠ [])
    (hAw4 : allCls .space ws4) (hnw4 : ws4 ≠ [])
    (hA1' : allCls .nonspace t1') (hne1' : t1' ≠ []) (hAw1' : allCls .space ws1')
    (hnw1' : ws1' ≠ [])
    (hA2' : allCls .digit t2') (hne2' : t2' ≠ []) (hAw2' : allCls .space ws2')
    (hnw2' : ws2' ≠ [])
    (hT3' : isTimeStr t3') (hAw3' : allCls .space ws3') (hnw3' : ws3' ≠ [])
    (hAw4' : allCls .space ws4') (hnw4' : ws4' ≠ [])
    (hr : headFails (clsMatch .space) r) (hr' : headFails (clsMatch .space) r') :
    t1 = t1' ∧ t2 = t2' ∧ t3 = t3' ∧ r = r' := by
  obtain ⟨et1, heq⟩ := run_uniq heq hA1 hA1'
    (stop_nonspace_of_ws hAw1 hnw1) (stop_nonspace_of_ws hAw1' hnw1')
  obtain ⟨ew1, heq⟩ := run_uniq heq hAw1 hAw1'
    (stop_space_of_digits hA2 hne2) (stop_space_of_digits hA2' hne2')
  obtain ⟨et2, heq⟩ := run_uniq heq hA2 hA2'
    (stop_digit_of_ws hAw2 hnw2) (stop_digit_of_ws hAw2' hnw2')
  obtain ⟨ew2, heq⟩ := run_uniq heq hAw2 hAw2'
    (stop_space_of_time hT3) (stop_space_of_time hT3')
  obtain ⟨et3, heq⟩ := len_uniq heq (by rw [isTimeStr_length hT3, isTimeStr_length hT3'])
  obtain ⟨ew3, heq⟩ := run_uniq heq hAw3 hAw3'
    (stop_space_of_server _) (stop_space_of_server _)
  have heq := List.append_cancel_left heq
  obtain ⟨ew4, heq⟩ := run_uniq heq hAw4 hAw4' hr hr'
  exact ⟨et1, et2, et3, heq⟩

/-- Property of a grammar tail: any text block it accepts starts with a
character outside `\s` (used to anchor the end of the shared prefix). -/
def tailHeadNonspace (tail : List Elem) : Prop :=
  ∀ b cc, MSeg tail b cc → ∃ ch brest, b = ch :: brest ∧ clsMatch .space ch = false

theorem tailHeadNonspace_lit {s : List Char} {es : List Elem} {ch : Char} {srest : List Char}
    (hs : s = ch :: srest) (hch : clsMatch .space ch = false) :
    tailHeadNonspace (.lit s :: es) := by
  intro b cc h
  cases h with
  | lit s h => exact ⟨ch, srest ++ _, by rw [hs, List.cons_append], hch⟩

theorem tailHeadNonspace_user_tail :
    tailHeadNonspace
      [.alts 4 [L "useradd", L "userdel", L "passwd", L "su", L "sudo"],
       .lit (L "["), .cap1 5 .digit, .lit (L "]:"), .many1 .space, .cap0 6 .dot] := by
  intro b cc h
  cases h with
  | alts s hs h =>
    simp only [List.mem_cons, List.not_mem_nil, or_false] at hs
    rcases hs with rfl | rfl | rfl | rfl | rfl
    · exact ⟨'u', _, rfl, by decide⟩
    · exact ⟨'u', _, rfl, by decide⟩
    · exact ⟨'p', _, rfl, by decide⟩
    · exact ⟨'s', _, rfl, by decide⟩
    · exact ⟨'s', _, rfl, by decide⟩

theorem grp_pre1 (t1 t2 t3 : List Char) (ct : List (Nat × List Char)) :
    grp ([(1, t1), (2, t2), (3, t3)] ++ ct) 1 = t1 := rfl

theorem grp_pre2 (t1 t2 t3 : List Char) (ct : List (Nat × List Char)) :
    grp ([(1, t1), (2, t2), (3, t3)] ++ ct) 2 = t2 := rfl

theorem grp_pre3 (t1 t2 t3 : List Char) (ct : List (Nat × List Char)) :
    grp ([(1, t1), (2, t2), (3, t3)] ++ ct) 3 = t3 := rfl

/-- When two of the five regexes both match one line, the shared prefix
tokenizes the line the same way for both: the first three captures
agree, and the two grammar tails parse the same remaining text. -/
theorem both_match_agree {tail tail' : List Elem} {line : List Char} {c c'}
    (hs : matchElems (preElems ++ tail) line = some c)
    (hs' : matchElems (preElems ++ tail') line = some c')
    (ht : tailHeadNonspace tail) (ht' : tailHeadNonspace tail') :
    ∃ t1 t2 t3 b2 c2 b2' c2' tl tl',
      c = [(1, t1), (2, t2), (3, t3)] ++ c2 ∧ c' = [(1, t1), (2, t2), (3, t3)] ++ c2' ∧
      MSeg tail b2 c2 ∧ MSeg tail' b2' c2' ∧
      (tl = [] ∨ tl = ['\n']) ∧ (tl' = [] ∨ tl' = ['\n']) ∧ b2 ++ tl = b2' ++ tl' := by
  obtain ⟨body, tl, hline, htl, hm⟩ := matchElems_sound hs
  obtain ⟨b1, b2, c1, c2, hbody, hcaps, hp, htm⟩ := MSeg_append_inv hm
  obtain ⟨t1, ws1, t2, ws2, t3, ws3, ws4, hb1, hc1, hA1, hne1, hAw1, hnw1, hA2, hne2, hAw2,
    hnw2, hT3, hAw3, hnw3, hAw4, hnw4⟩ := MSeg_pre_inv hp
  obtain ⟨ch, brest, hb2, hch⟩ := ht _ _ htm
  obtain ⟨body', tl', hline', htl', hm'⟩ := matchElems_sound hs'
  obtain ⟨b1', b2', c1', c2', hbody', hcaps', hp', htm'⟩ := MSeg_append_inv hm'
  obtain ⟨t1', ws1', t2', ws2', t3', ws3', ws4', hb1', hc1', hA1', hne1', hAw1', hnw1', hA2',
    hne2', hAw2', hnw2', hT3', hAw3', hnw3', hAw4', hnw4'⟩ := MSeg_pre_inv hp'
  obtain ⟨ch', brest', hb2', hch'⟩ := ht' _ _ htm'
  subst hbody hb1 hb2 hbody' hb1' hb2' hc1 hc1'
  have heq :
      t1 ++ (ws1 ++ (t2 ++ (ws2 ++ (t3 ++ (ws3 ++
        (L "server" ++ (ws4 ++ (ch :: (brest ++ tl))))))))) =
      t1' ++ (ws1' ++ (t2' ++ (ws2' ++ (t3' ++ (ws3' ++
        (L "server" ++ (ws4' ++ (ch' :: (brest' ++ tl'))))))))) := by
    have h1 := hline.symm.trans hline'
    simp only [List.append_assoc, List.cons_append] at h1 ⊢
    exact h1
  obtain ⟨et1, et2, et3, er⟩ := pre_uniq heq hA1 hne1 hAw1 hnw1 hA2 hne2 hAw2 hnw2 hT3 hAw3
    hnw3 hAw4 hnw4 hA1' hne1' hAw1' hnw1' hA2' hne2' hAw2' hnw2' hT3' hAw3' hnw3' hAw4' hnw4'
    (headFails_cons hch) (headFails_cons hch')
  refine ⟨t1, t2, t3, ch :: brest, c2, ch' :: brest', c2', tl, tl', hcaps, ?_, htm, htm',
    htl, htl', ?_⟩
  · rw [hcaps', ← et1, ← et2, ← et3]
  · rw [List.cons_append, List.cons_append]
    exact er

/-- Inversion of the grammar tail of `user_regex`:
`(useradd|userdel|passwd|su|sudo)\[(\d+)\]:\s+(.*)$`. -/
theorem user_tail_inv {b : List Char} {cc}
    (h : MSeg [.alts 4 [L "useradd", L "userdel", L "passwd", L "su", L "sudo"],
               .lit (L "["), .cap1 5 .digit, .lit (L "]:"), .many1 .space, .cap0 6 .dot] b cc) :
    ∃ s pid ws5 dtl,
      b = s ++ (L "[" ++ (pid ++ (L "]:" ++ (ws5 ++ dtl)))) ∧
      cc = [(4, s), (5, pid), (6, dtl)] ∧
      s ∈ [L "useradd", L "userdel", L "passwd", L "su", L "sudo"] ∧
      allCls .digit pid ∧ pid ≠ [] ∧ allCls .space ws5 ∧ ws5 ≠ [] ∧ allCls .dot dtl := by
  cases h with
  | alts s hs h =>
    cases h with
    | lit _ h =>
      cases h with
      | cap1 pid hApid hnepid h =>
        cases h with
        | lit _ h =>
          cases h with
          | many1 ws5 hAw5 hnw5 h =>
            cases h with
            | cap0 dtl hAdtl h =>
              cases h with
              | nil =>
                exact ⟨s, pid, ws5, dtl, by simp [List.append_assoc], rfl, hs,
                  hApid, hnepid, hAw5, hnw5, hAdtl⟩

theorem grp_user4 (t1 t2 t3 s pid dtl : List Char) :
    grp ([(1, t1), (2, t2), (3, t3)] ++ [(4, s), (5, pid), (6, dtl)]) 4 = s := rfl

theorem grp_user6 (t1 t2 t3 s pid dtl : List Char) :
    grp ([(1, t1), (2, t2), (3, t3)] ++ [(4, s), (5, pid), (6, dtl)]) 6 = dtl := rfl

/-- A line classified by `user_regex` with process name `su` has `su[`
after `server`, so no regex expecting the literal `sudo[` there can
match it. -/
theorem su_no_sudo_tail {line : List Char} {c} (es' : List Elem)
    (hu : matchElems (preElems ++
      [.alts 4 [L "useradd", L "userdel", L "passwd", L "su", L "sudo"],
       .lit (L "["), .cap1 5 .digit, .lit (L "]:"), .many1 .space, .cap0 6 .dot]) line = some c)
    (hsu : grp c 4 = L "su") :
    matchElems (preElems ++ (.lit (L "sudo[") :: es')) line = none := by
  cases hq : matchElems (preElems ++ (.lit (L "sudo[") :: es')) line with
  | none => rfl
  | some c' =>
    exfalso
    obtain ⟨t1, t2, t3, b2, c2, b2', c2', tl, tl', hc, hc', htm, htm', htl, htl', heq⟩ :=
      both_match_agree hu hq tailHeadNonspace_user_tail (tailHeadNonspace_lit rfl (by decide))
    obtain ⟨s, pid, ws5, dtl, rfl, hcc, hsmem, -⟩ := user_tail_inv htm
    have hs4 : s = L "su" := by
      rw [hc, hcc, grp_user4] at hsu
      exact hsu
    subst hs4
    cases htm' with
    | lit _ h' =>
      simp only [show L "su" = ['s', 'u'] from rfl, show L "sudo[" = ['s', 'u', 'd', 'o', '['] from rfl,
        show L "[" = ['['] from rfl, List.cons_append, List.append_assoc, List.nil_append] at heq
      simp at heq

/-- The same for the literal `sshd[` (the hydra grammar). -/
theorem su_no_sshd_tail {line : List Char} {c} (es' : List Elem)
    (hu : matchElems (preElems ++
      [.alts 4 [L "useradd", L "userdel", L "passwd", L "su", L "sudo"],
       .lit (L "["), .cap1 5 .digit, .lit (L "]:"), .many1 .space, .cap0 6 .dot]) line = some c)
    (hsu : grp c 4 = L "su") :
    matchElems (preElems ++ (.lit (L "sshd[") :: es')) line = none := by
  cases hq : matchElems (preElems ++ (.lit (L "sshd[") :: es')) line with
  | none => rfl
  | some c' =>
    exfalso
    obtain ⟨t1, t2, t3, b2, c2, b2', c2', tl, tl', hc, hc', htm, htm', htl, htl', heq⟩ :=
      both_match_agree hu hq tailHeadNonspace_user_tail (tailHeadNonspace_lit rfl (by decide))
    obtain ⟨s, pid, ws5, dtl, rfl, hcc, hsmem, -⟩ := user_tail_inv htm
    have hs4 : s = L "su" := by
      rw [hc, hcc, grp_user4] at hsu
      exact hsu
    subst hs4
    cases htm' with
    | lit _ h' =>
      simp only [show L "su" = ['s', 'u'] from rfl, show L "sshd[" = ['s', 's', 'h', 'd', '['] from rfl,
        show L "[" = ['['] from rfl, List.cons_append, List.append_assoc, List.nil_append] at heq
      simp at heq

/-- After the `su` sub-case of the `user_regex` block falls through, the
three remaining regex blocks all fail, so `parse_line` returns the
statistics it was handed and no event. -/
theorem su_falls_through {line : List Char} {c} (y : Nat) (st : Stats)
    (hu : matchElems user_regex line = some c) (hsu : grp c 4 = L "su") :
    trySudoCmd y line st = (st, none) := by
  have h3 : matchElems sudo_command_regex line = none := su_no_sudo_tail _ hu hsu
  have h4 : matchElems sudo_failure_regex line = none := su_no_sudo_tail _ hu hsu
  have h5 : matchElems hydra_attack_regex line = none := su_no_sshd_tail _ hu hsu
  simp only [trySudoCmd, h3, tryFailedSudo, h4, tryHydra, h5]

/-
Facts about the analysis loop: the classifier's event output does not
depend on the running statistics, `parse_line` never touches
`total_entries`, and the loop accumulates exactly the produced events in
input order.
-/

theorem parse_line_ev_st (y : Nat) (line : List Char) (st st' : Stats) :
    (parse_line y line st).2 = (parse_line y line st').2 := by
  unfold parse_line trySudoCmd tryFailedSudo tryHydra
  repeat' split <;> try rfl

theorem parse_line_total (y : Nat) (line : List Char) (st : Stats) :
    (parse_line y line st).1.total_entries = st.total_entries := by
  unfold parse_line trySudoCmd tryFailedSudo tryHydra
  repeat' split <;> try rfl

theorem runLines_aux (y : Nat) : ∀ (ls : List (List Char)) (st : Stats)
    (acc : List (Timestamp × List Char)),
    (List.foldl (analyzeStep y) (st, acc) ls).2 = acc ++ ls.filterMap (lineEvent y) ∧
    (List.foldl (analyzeStep y) (st, acc) ls).1.total_entries =
      st.total_entries + (ls.filterMap (lineEvent y)).length := by
  intro ls
  induction ls with
  | nil => intro st acc; simp
  | cons l ls ih =>
    intro st acc
    have hev : (parse_line y (pyStrip l) st).2 = lineEvent y l :=
      parse_line_ev_st y (pyStrip l) st initStats
    simp only [List.foldl_cons, analyzeStep]
    cases hpe : parse_line y (pyStrip l) st with
    | mk st1 ev =>
      have hev' : lineEvent y l = ev := by rw [← hev, hpe]
      have htot : st1.total_entries = st.total_entries := by
        have := parse_line_total y (pyStrip l) st
        rw [hpe] at this
        exact this
      cases ev with
      | some e =>
        obtain ⟨h1, h2⟩ := ih {st1 with total_entries := st1.total_entries + 1} (acc ++ [e])
        constructor
        · rw [h1]
          simp [List.filterMap_cons, hev']
        · rw [h2]
          simp only [List.filterMap_cons, hev', List.length_cons]
          simp [htot]
          omega
      | none =>
        obtain ⟨h1, h2⟩ := ih st1 acc
        constructor
        · rw [h1]
          simp [List.filterMap_cons, hev']
        · rw [h2]
          simp [List.filterMap_cons, hev', htot]

theorem runLines_snd (y : Nat) (ls : List (List Char)) :
    (runLines y ls).2 = ls.filterMap (lineEvent y) := by
  have := (runLines_aux y ls initStats []).1
  simpa [runLines] using this

theorem runLines_total (y : Nat) (ls : List (List Char)) :
    (runLines y ls).1.total_entries = (ls.filterMap (lineEvent y)).length := by
  have := (runLines_aux y ls initStats []).2
  simpa [runLines, initStats] using this

/-
The stable sort: order, membership, and stability (equal-timestamp
entries keep their input order, expressed as preservation of the
per-timestamp filtered sublist).
-/

theorem tsLE_total (a b : Timestamp) : tsLE a b = true ∨ tsLE b a = true := by
  unfold tsLE
  rcases Nat.le_total (tsKey a) (tsKey b) with h | h
  · exact Or.inl (by simpa using h)
  · exact Or.inr (by simpa using h)

theorem tsLE_trans {a b c : Timestamp} (h1 : tsLE a b = true) (h2 : tsLE b c = true) :
    tsLE a c = true := by
  unfold tsLE at *
  simp only [decide_eq_true_eq] at *
  omega

theorem tsLE_of_eq {a b : Timestamp} (h : a = b) : tsLE a b = true := by
  subst h
  simp [tsLE]

theorem insertEntry_split (e : Timestamp × List Char) :
    ∀ l : List (Timestamp × List Char),
    ∃ l1 l2, l = l1 ++ l2 ∧ insertEntry e l = l1 ++ e :: l2 ∧
      (∀ f ∈ l1, tsLE f.1 e.1 = true) ∧
      (l2 = [] ∨ ∃ g t2, l2 = g :: t2 ∧ tsLE g.1 e.1 = false) := by
  intro l
  induction l with
  | nil => exact ⟨[], [], rfl, rfl, by simp, Or.inl rfl⟩
  | cons f rest ih =>
    by_cases hf : tsLE f.1 e.1 = true
    · obtain ⟨l1, l2, hl, hins, h1, h2⟩ := ih
      refine ⟨f :: l1, l2, by rw [hl, List.cons_append], ?_, ?_, h2⟩
      · unfold insertEntry
        rw [hf, if_pos rfl, hins, List.cons_append]
      · intro g hg
        rcases List.mem_cons.mp hg with rfl | hg
        · exact hf
        · exact h1 g hg
    · refine ⟨[], f :: rest, rfl, ?_, by simp, Or.inr ⟨f, rest, rfl, by simpa using hf⟩⟩
      unfold insertEntry
      simp only [Bool.not_eq_true] at hf
      rw [hf]
      simp

theorem mem_insertEntry {e g : Timestamp × List Char} {l : List (Timestamp × List Char)}
    (h : g ∈ insertEntry e l) : g = e ∨ g ∈ l := by
  obtain ⟨l1, l2, hl, hins, -, -⟩ := insertEntry_split e l
  rw [hins] at h
  rw [hl]
  rcases List.mem_append.mp h with h | h
  · exact Or.inr (List.mem_append.mpr (Or.inl h))
  · rcases List.mem_cons.mp h with rfl | h
    · exact Or.inl rfl
    · exact Or.inr (List.mem_append.mpr (Or.inr h))

theorem insertEntry_sorted {e : Timestamp × List Char} :
    ∀ {l : List (Timestamp × List Char)},
    l.Pairwise (fun a b => tsLE a.1 b.1 = true) →
    (insertEntry e l).Pairwise (fun a b => tsLE a.1 b.1 = true) := by
  intro l
  induction l with
  | nil => intro _; simp [insertEntry]
  | cons f rest ih =>
    intro hs
    rw [List.pairwise_cons] at hs
    obtain ⟨hf, hrest⟩ := hs
    unfold insertEntry
    by_cases hfe : tsLE f.1 e.1 = true
    · rw [hfe, if_pos rfl, List.pairwise_cons]
      refine ⟨?_, ih hrest⟩
      intro g hg
      rcases mem_insertEntry hg with rfl | hg
      · exact hfe
      · exact hf g hg
    · simp only [Bool.not_eq_true] at hfe
      rw [hfe]
      simp only [Bool.false_eq_true, if_false]
      rw [List.pairwise_cons]
      constructor
      · intro g hg
        rcases List.mem_cons.mp hg with rfl | hg
        · rcases tsLE_total e.1 g.1 with h | h
          · exact h
          · rw [h] at hfe
            cases hfe
        · have hef : tsLE e.1 f.1 = true := by
            rcases tsLE_total e.1 f.1 with h | h
            · exact h
            · rw [h] at hfe
              cases hfe
          exact tsLE_trans hef (hf g hg)
      · rw [List.pairwise_cons]
        exact ⟨hf, hrest⟩

theorem sortEntries_append_one (l : List (Timestamp × List Char)) (e : Timestamp × List Char) :
    sortEntries (l ++ [e]) = insertEntry e (sortEntries l) := by
  unfold sortEntries
  rw [List.foldl_append]
  rfl

theorem sortEntries_sorted (l : List (Timestamp × List Char)) :
    (sortEntries l).Pairwise (fun a b => tsLE a.1 b.1 = true) := by
  induction l using List.reverseRecOn with
  | nil => simp [sortEntries]
  | append_singleton l e ih =>
    rw [sortEntries_append_one]
    exact insertEntry_sorted ih

theorem filter_insertEntry {t : Timestamp} {e : Timestamp × List Char}
    {l : List (Timestamp × List Char)}
    (hs : l.Pairwise (fun a b => tsLE a.1 b.1 = true)) :
    (insertEntry e l).filter (fun x => decide (x.1 = t)) =
      if e.1 = t then l.filter (fun x => decide (x.1 = t)) ++ [e]
      else l.filter (fun x => decide (x.1 = t)) := by
  obtain ⟨l1, l2, hl, hins, h1, h2⟩ := insertEntry_split e l
  subst hl
  rw [hins, List.filter_append, List.filter_append, List.filter_cons]
  by_cases he : e.1 = t
  · have hl2 : l2.filter (fun x => decide (x.1 = t)) = [] := by
      rw [List.filter_eq_nil_iff]
      intro g hg
      rcases h2 with rfl | ⟨g0, t2, rfl, hg0⟩
      · simp at hg
      · have hng : tsLE g.1 e.1 = false := by
          rcases List.mem_cons.mp hg with rfl | hg
          · exact hg0
          · have hp := (List.pairwise_append.mp hs).2.1
            rw [List.pairwise_cons] at hp
            have h0g := hp.1 g hg
            cases hb : tsLE g.1 e.1 with
            | false => rfl
            | true =>
              exfalso
              have hcontra := tsLE_trans h0g hb
              rw [hcontra] at hg0
              cases hg0
        intro hgt
        simp only [decide_eq_true_eq] at hgt
        have hle : tsLE g.1 e.1 = true := tsLE_of_eq (by rw [hgt, ← he])
        rw [hle] at hng
        cases hng
    simp [he, hl2]
  · simp [he]

theorem sortEntries_filter (t : Timestamp) (l : List (Timestamp × List Char)) :
    (sortEntries l).filter (fun x => decide (x.1 = t)) = l.filter (fun x => decide (x.1 = t)) := by
  induction l using List.reverseRecOn with
  | nil => simp [sortEntries]
  | append_singleton l e ih =>
    rw [sortEntries_append_one, filter_insertEntry (sortEntries_sorted l), List.filter_append,
      List.filter_cons]
    by_cases he : e.1 = t
    · simp [he, ih]
    · simp [he, ih]

/-
Facts about `str.split('.')` and `sanitize_ip`.
-/

theorem pySplit_cons (sep c : Char) (rest : List Char) :
    pySplit sep (c :: rest) =
      match pySplit sep rest with
      | a :: parts => if c = sep then [] :: a :: parts else (c :: a) :: parts
      | [] => [[c]] := rfl

theorem pySplit_ne_nil (sep : Char) : ∀ s, pySplit sep s ≠ [] := by
  intro s
  induction s with
  | nil => simp [pySplit]
  | cons c rest ih =>
    rw [pySplit_cons]
    cases hps : pySplit sep rest with
    | nil => exact absurd hps ih
    | cons a parts =>
      dsimp only
      by_cases hc : c = sep <;> simp [hc]

theorem pySplit_no_sep (sep : Char) : ∀ s, ∀ part ∈ pySplit sep s, sep ∉ part := by
  intro s
  induction s with
  | nil =>
    intro part hp
    simp [pySplit] at hp
    simp [hp]
  | cons c rest ih =>
    intro part hp
    rw [pySplit_cons] at hp
    cases hps : pySplit sep rest with
    | nil => exact absurd hps (pySplit_ne_nil sep rest)
    | cons a parts =>
      rw [hps] at hp
      dsimp only at hp
      by_cases hc : c = sep
      · rw [if_pos hc] at hp
        rcases List.mem_cons.mp hp with rfl | hp
        · simp
        · exact ih part (by rw [hps]; exact hp)
      · rw [if_neg hc] at hp
        rcases List.mem_cons.mp hp with rfl | hp
        · intro hmem
          rcases List.mem_cons.mp hmem with rfl | hmem
          · exact hc rfl
          · exact ih a (by rw [hps]; simp) hmem
        · exact ih part (by rw [hps]; simp [hp])

theorem pySplit_no_sep_id {sep : Char} : ∀ {d : List Char}, sep ∉ d → pySplit sep d = [d] := by
  intro d
  induction d with
  | nil => intro _; rfl
  | cons c rest ih =>
    intro h
    have hc : c ≠ sep := fun hh => h (by simp [hh])
    have hrest : sep ∉ rest := fun hh => h (by simp [hh])
    rw [pySplit_cons, ih hrest]
    dsimp only
    rw [if_neg hc]

theorem pySplit_append_sep {sep : Char} : ∀ {a rest : List Char}, sep ∉ a →
    pySplit sep (a ++ sep :: rest) = a :: pySplit sep rest := by
  intro a
  induction a with
  | nil =>
    intro rest _
    show pySplit sep (sep :: rest) = [] :: pySplit sep rest
    rw [pySplit_cons]
    cases hps : pySplit sep rest with
    | nil => exact absurd hps (pySplit_ne_nil sep rest)
    | cons a parts =>
      dsimp only
      rw [if_pos rfl]
  | cons c a ih =>
    intro rest hna
    have hc : c ≠ sep := fun hh => hna (by simp [hh])
    have ha : sep ∉ a := fun hh => hna (by simp [hh])
    show pySplit sep (c :: (a ++ sep :: rest)) = (c :: a) :: pySplit sep rest
    rw [pySplit_cons, ih ha]
    dsimp only
    rw [if_neg hc]

theorem pySplit_length (sep : Char) : ∀ s : List Char,
    (pySplit sep s).length = s.count sep + 1 := by
  intro s
  induction s with
  | nil => simp [pySplit]
  | cons c rest ih =>
    rw [pySplit_cons]
    cases hps : pySplit sep rest with
    | nil => exact absurd hps (pySplit_ne_nil sep rest)
    | cons a parts =>
      dsimp only
      rw [hps] at ih
      by_cases hc : c = sep
      · subst hc
        rw [if_pos rfl]
        simp only [List.length_cons, List.count_cons_self]
        simp at ih
        omega
      · rw [if_neg hc]
        rw [List.count_cons_of_ne (Ne.symm hc)]
        simp at ih ⊢
        omega

theorem sanitize_ip_four {a b c d : List Char} (ha : '.' ∉ a) (hb : '.' ∉ b)
    (hc : '.' ∉ c) (hd : '.' ∉ d) :
    sanitize_ip (a ++ L "." ++ b ++ L "." ++ c ++ L "." ++ d) =
      a ++ L "." ++ b ++ L ".XXX.XXX" := by
  have h0 : a ++ L "." ++ b ++ L "." ++ c ++ L "." ++ d =
      a ++ '.' :: (b ++ '.' :: (c ++ '.' :: d)) := by
    simp [show L "." = ['.'] from rfl, List.append_assoc]
  have hsplit : pySplit '.' (a ++ L "." ++ b ++ L "." ++ c ++ L "." ++ d) = [a, b, c, d] := by
    rw [h0, pySplit_append_sep ha, pySplit_append_sep hb, pySplit_append_sep hc,
      pySplit_no_sep_id hd]
  unfold sanitize_ip
  rw [hsplit]

theorem sanitize_ip_other {s : List Char} (h : s.count '.' ≠ 3) :
    sanitize_ip s = L "XXX.XXX.XXX.XXX" := by
  unfold sanitize_ip
  split
  next p0 p1 p2 p3 hps =>
    exfalso
    have hl := pySplit_length '.' s
    rw [hps] at hl
    simp at hl
    omega
  · rfl

theorem sanitize_ip_cases (s : List Char) :
    (∃ p0 p1 p2 p3, pySplit '.' s = [p0, p1, p2, p3] ∧
      sanitize_ip s = p0 ++ L "." ++ p1 ++ L ".XXX.XXX") ∨
    sanitize_ip s = L "XXX.XXX.XXX.XXX" := by
  unfold sanitize_ip
  split
  next p0 p1 p2 p3 hps => exact Or.inl ⟨p0, p1, p2, p3, hps, rfl⟩
  next => exact Or.inr rfl

/-- C8: `sanitize_ip` is idempotent: sanitizing any string twice yields
exactly what sanitizing it once does; in particular an already-sanitized
IP is left unchanged.  Being a plain function of its argument, the model
is pure and deterministic by construction. -/
theorem claim_C8 (s : List Char) : sanitize_ip (sanitize_ip s) = sanitize_ip s := by
  rcases sanitize_ip_cases s with ⟨p0, p1, p2, p3, hps, hs⟩ | hs
  · rw [hs]
    have hp0 : '.' ∉ p0 := pySplit_no_sep '.' s p0 (by rw [hps]; simp)
    have hp1 : '.' ∉ p1 := pySplit_no_sep '.' s p1 (by rw [hps]; simp)
    have hshape : p0 ++ L "." ++ p1 ++ L ".XXX.XXX" =
        p0 ++ L "." ++ p1 ++ L "." ++ L "XXX" ++ L "." ++ L "XXX" := by
      simp [show L ".XXX.XXX" = '.' :: ('X' :: 'X' :: 'X' :: '.' :: 'X' :: 'X' :: 'X' :: []) from rfl,
        show L "." = ['.'] from rfl, show L "XXX" = ['X', 'X', 'X'] from rfl, List.append_assoc]
    calc sanitize_ip (p0 ++ L "." ++ p1 ++ L ".XXX.XXX")
        = sanitize_ip (p0 ++ L "." ++ p1 ++ L "." ++ L "XXX" ++ L "." ++ L "XXX") := by
          rw [hshape]
      _ = p0 ++ L "." ++ p1 ++ L ".XXX.XXX" :=
          sanitize_ip_four hp0 hp1 (by decide) (by decide)
  · rw [hs]
    decide

/-- C9: on a string with exactly four dot-separated parts (three dots),
`sanitize_ip` keeps the first two parts and masks the last two; on any
other octet count it degrades to the full mask.  The model is a total
function, so no input can raise an error. -/
theorem claim_C9 :
    (∀ a b c d : List Char, '.' ∉ a → '.' ∉ b → '.' ∉ c → '.' ∉ d →
      sanitize_ip (a ++ L "." ++ b ++ L "." ++ c ++ L "." ++ d) =
        a ++ L "." ++ b ++ L ".XXX.XXX") ∧
    (∀ s : List Char, s.count '.' ≠ 3 → sanitize_ip s = L "XXX.XXX.XXX.XXX") :=
  ⟨fun _ _ _ _ ha hb hc hd => sanitize_ip_four ha hb hc hd,
   fun _ h => sanitize_ip_other h⟩

theorem claim_C9_witness :
    sanitize_ip (L "203" ++ L "." ++ L "0" ++ L "." ++ L "113" ++ L "." ++ L "50") =
      L "203" ++ L "." ++ L "0" ++ L ".XXX.XXX" ∧
    sanitize_ip (L "not-an-ip") = L "XXX.XXX.XXX.XXX" :=
  ⟨claim_C9.1 (L "203") (L "0") (L "113") (L "50")
      (by decide) (by decide) (by decide) (by decide),
   claim_C9.2 (L "not-an-ip") (by decide)⟩

theorem analyzeLines_eq (y : Nat) (lines : List (List Char)) :
    analyzeLines y lines = ((runLines y lines).1, sortEntries (runLines y lines).2) := by
  unfold analyzeLines
  cases runLines y lines
  rfl

/-- C6: the report body is ascending in the timestamp order, the sort is
stable (restricting the sorted entry list to any single timestamp gives
exactly the input-order collected list restricted to that timestamp),
and on Scenario D's two equal-timestamp lines (a command log, then a
failed login) the command log is rendered first. -/
theorem claim_C6 :
    (∀ (y : Nat) (lines : List (List Char)),
      ((analyzeLines y lines).2).Pairwise (fun a b => tsLE a.1 b.1 = true)) ∧
    (∀ (y : Nat) (lines : List (List Char)) (t : Timestamp),
      ((analyzeLines y lines).2).filter (fun e => decide (e.1 = t)) =
        ((runLines y lines).2).filter (fun e => decide (e.1 = t))) ∧
    ((analyzeLines 2024 [exLineCmdD, exLineHydraD]).2.map (fun e => e.2) =
      [L "Command Log - Timestamp: 2024-02-01 00:00:00, User: alice, Command: /bin/ls\n",
       L "Hydra Attack - Failed login attempt - Timestamp: 2024-02-01 00:00:00, User: admin, IP: 1.2.XXX.XXX, Port: 22\n"]) := by
  refine ⟨?_, ?_, ?_⟩
  · intro y lines
    rw [analyzeLines_eq]
    exact sortEntries_sorted _
  · intro y lines t
    rw [analyzeLines_eq]
    exact sortEntries_filter t _
  · decide

/-- C10: Scenario A: on the single failed-ssh-login line with year 2024
the run produces exactly one event, `total_entries`, `failed_logins` and
`potential_attacks` are 1, every other counter is 0, and the rendered
message carries the sanitized source address `203.0.XXX.XXX`. -/
theorem claim_C10 :
    analyzeLines 2024 [exLineHydraFailed] =
      (⟨1, 0, 0, 0, 0, 1, 0, 1⟩,
       [(⟨2024, 1, 5, 10, 0, 0⟩,
         L "Hydra Attack - Failed login attempt - Timestamp: 2024-01-05 10:00:00, User: admin, IP: 203.0.XXX.XXX, Port: 22000\n")]) ∧
    List.IsInfix (L "203.0.XXX.XXX")
      (L "Hydra Attack - Failed login attempt - Timestamp: 2024-01-05 10:00:00, User: admin, IP: 203.0.XXX.XXX, Port: 22000\n") := by
  constructor
  · decide
  · exact ⟨L "Hydra Attack - Failed login attempt - Timestamp: 2024-01-05 10:00:00, User: admin, IP: ",
      L ", Port: 22000\n", by decide⟩

/-- C5: classification applies the grammars in the fixed source order,
so a line whose text matches `command_regex` (grammar 1) with a
normalizable timestamp is classified by grammar 1 alone and yields that
single event, even when `user_regex` (grammar 2) also matches the same
line: only `commands` is incremented. -/
theorem claim_C5 (y : Nat) (line : List Char) (st : Stats)
    (m m2 : List (Nat × List Char)) (ts : Timestamp)
    (h1 : matchElems command_regex line = some m)
    (h2 : matchElems user_regex line = some m2)
    (hts : normTimestamp y (grp m 1) (grp m 2) (grp m 3) = some ts) :
    parse_line y line st =
      ({st with commands := st.commands + 1},
       some (ts, commandLogMsg ts (grp m 5) (grp m 6))) := by
  simp only [parse_line, h1, hts]

theorem claim_C5_witness :
    parse_line 2024 exLineCmdD initStats =
      ({initStats with commands := initStats.commands + 1},
       some (⟨2024, 2, 1, 0, 0, 0⟩,
         commandLogMsg ⟨2024, 2, 1, 0, 0, 0⟩ (L "alice") (L "/bin/ls"))) := by
  have h1 : matchElems command_regex exLineCmdD =
      some [(1, L "Feb"), (2, L "1"), (3, L "00:00:00"), (4, L "100"),
            (5, L "alice"), (6, L "/bin/ls")] := by decide
  have h2 : matchElems user_regex exLineCmdD =
      some [(1, L "Feb"), (2, L "1"), (3, L "00:00:00"), (4, L "sudo"), (5, L "100"),
            (6, L "alice : TTY=pts/0 ; PWD=/home ; USER=root ; COMMAND=/bin/ls")] := by decide
  have hts : normTimestamp 2024
      (grp [(1, L "Feb"), (2, L "1"), (3, L "00:00:00"), (4, L "100"),
            (5, L "alice"), (6, L "/bin/ls")] 1)
      (grp [(1, L "Feb"), (2, L "1"), (3, L "00:00:00"), (4, L "100"),
            (5, L "alice"), (6, L "/bin/ls")] 2)
      (grp [(1, L "Feb"), (2, L "1"), (3, L "00:00:00"), (4, L "100"),
            (5, L "alice"), (6, L "/bin/ls")] 3) = some ⟨2024, 2, 1, 0, 0, 0⟩ := by decide
  have hmain := claim_C5 2024 exLineCmdD initStats
      [(1, L "Feb"), (2, L "1"), (3, L "00:00:00"), (4, L "100"), (5, L "alice"), (6, L "/bin/ls")]
      [(1, L "Feb"), (2, L "1"), (3, L "00:00:00"), (4, L "sudo"), (5, L "100"),
       (6, L "alice : TTY=pts/0 ; PWD=/home ; USER=root ; COMMAND=/bin/ls")]
      ⟨2024, 2, 1, 0, 0, 0⟩ h1 h2 hts
  rw [hmain]
  have hu : grp [(1, L "Feb"), (2, L "1"), (3, L "00:00:00"), (4, L "100"),
      (5, L "alice"), (6, L "/bin/ls")] 5 = L "alice" := by decide
  have hc : grp [(1, L "Feb"), (2, L "1"), (3, L "00:00:00"), (4, L "100"),
      (5, L "alice"), (6, L "/bin/ls")] 6 = L "/bin/ls" := by decide
  rw [hu, hc]

theorem thn_lit_sudo (es : List Elem) : tailHeadNonspace (.lit (L "sudo[") :: es) :=
  tailHeadNonspace_lit rfl (by decide)

theorem thn_lit_sshd (es : List Elem) : tailHeadNonspace (.lit (L "sshd[") :: es) :=
  tailHeadNonspace_lit rfl (by decide)

/-- A failing timestamp normalization transfers between any two of the
five regexes matching the same line, because they capture the same
three prefix tokens. -/
theorem ts_fail_transfers {tail tail' : List Elem} {line : List Char} {m m'}
    (hm : matchElems (preElems ++ tail) line = some m)
    (hm' : matchElems (preElems ++ tail') line = some m')
    (ht : tailHeadNonspace tail) (ht' : tailHeadNonspace tail')
    {y : Nat} (hf : normTimestamp y (grp m 1) (grp m 2) (grp m 3) = none) :
    normTimestamp y (grp m' 1) (grp m' 2) (grp m' 3) = none := by
  obtain ⟨t1, t2, t3, b2, c2, b2', c2', tl, tl', hc, hc', -, -, -, -, -⟩ :=
    both_match_agree hm hm' ht ht'
  rw [hc, grp_pre1, grp_pre2, grp_pre3] at hf
  rw [hc', grp_pre1, grp_pre2, grp_pre3]
  exact hf

/-- C7: a line whose text matches one of the five grammars but whose
captured month/day/time fields do not normalize to a valid date in the
supplied year produces no event and leaves every counter unchanged
(`parse_line` returns the statistics it was handed). -/
theorem claim_C7 (y : Nat) (line : List Char) (st : Stats)
    (h : ∃ rx ∈ [command_regex, user_regex, sudo_command_regex, sudo_failure_regex,
        hydra_attack_regex], ∃ m, matchElems rx line = some m ∧
        normTimestamp y (grp m 1) (grp m 2) (grp m 3) = none) :
    parse_line y line st = (st, none) := by
  obtain ⟨rx, hrx, m, hm, hf⟩ := h
  simp only [List.mem_cons, List.not_mem_nil, or_false] at hrx
  unfold parse_line
  cases hq1 : matchElems command_regex line with
  | some m1 =>
    dsimp only
    have hf1 : normTimestamp y (grp m1 1) (grp m1 2) (grp m1 3) = none := by
      rcases hrx with rfl | rfl | rfl | rfl | rfl
      · exact ts_fail_transfers hm hq1 (thn_lit_sudo _) (thn_lit_sudo _) hf
      · exact ts_fail_transfers hm hq1 tailHeadNonspace_user_tail (thn_lit_sudo _) hf
      · exact ts_fail_transfers hm hq1 (thn_lit_sudo _) (thn_lit_sudo _) hf
      · exact ts_fail_transfers hm hq1 (thn_lit_sudo _) (thn_lit_sudo _) hf
      · exact ts_fail_transfers hm hq1 (thn_lit_sshd _) (thn_lit_sudo _) hf
    simp only [hf1]
  | none =>
    cases hq2 : matchElems user_regex line with
    | some m2 =>
      dsimp only
      have hf2 : normTimestamp y (grp m2 1) (grp m2 2) (grp m2 3) = none := by
        rcases hrx with rfl | rfl | rfl | rfl | rfl
        · exact ts_fail_transfers hm hq2 (thn_lit_sudo _) tailHeadNonspace_user_tail hf
        · exact ts_fail_transfers hm hq2 tailHeadNonspace_user_tail tailHeadNonspace_user_tail hf
        · exact ts_fail_transfers hm hq2 (thn_lit_sudo _) tailHeadNonspace_user_tail hf
        · exact ts_fail_transfers hm hq2 (thn_lit_sudo _) tailHeadNonspace_user_tail hf
        · exact ts_fail_transfers hm hq2 (thn_lit_sshd _) tailHeadNonspace_user_tail hf
      simp only [hf2]
    | none =>
      unfold trySudoCmd
      cases hq3 : matchElems sudo_command_regex line with
      | some m3 =>
        dsimp only
        have hf3 : normTimestamp y (grp m3 1) (grp m3 2) (grp m3 3) = none := by
          rcases hrx with rfl | rfl | rfl | rfl | rfl
          · exact ts_fail_transfers hm hq3 (thn_lit_sudo _) (thn_lit_sudo _) hf
          · exact ts_fail_transfers hm hq3 tailHeadNonspace_user_tail (thn_lit_sudo _) hf
          · exact ts_fail_transfers hm hq3 (thn_lit_sudo _) (thn_lit_sudo _) hf
          · exact ts_fail_transfers hm hq3 (thn_lit_sudo _) (thn_lit_sudo _) hf
          · exact ts_fail_transfers hm hq3 (thn_lit_sshd _) (thn_lit_sudo _) hf
        simp only [hf3]
      | none =>
        unfold tryFailedSudo
        cases hq4 : matchElems sudo_failure_regex line with
        | some m4 =>
          dsimp only
          have hf4 : normTimestamp y (grp m4 1) (grp m4 2) (grp m4 3) = none := by
            rcases hrx with rfl | rfl | rfl | rfl | rfl
            · exact ts_fail_transfers hm hq4 (thn_lit_sudo _) (thn_lit_sudo _) hf
            · exact ts_fail_transfers hm hq4 tailHeadNonspace_user_tail (thn_lit_sudo _) hf
            · exact ts_fail_transfers hm hq4 (thn_lit_sudo _) (thn_lit_sudo _) hf
            · exact ts_fail_transfers hm hq4 (thn_lit_sudo _) (thn_lit_sudo _) hf
            · exact ts_fail_transfers hm hq4 (thn_lit_sshd _) (thn_lit_sudo _) hf
          simp only [hf4]
        | none =>
          unfold tryHydra
          cases hq5 : matchElems hydra_attack_regex line with
          | some m5 =>
            dsimp only
            have hf5 : normTimestamp y (grp m5 1) (grp m5 2) (grp m5 3) = none := by
              rcases hrx with rfl | rfl | rfl | rfl | rfl
              · exact ts_fail_transfers hm hq5 (thn_lit_sudo _) (thn_lit_sshd _) hf
              · exact ts_fail_transfers hm hq5 tailHeadNonspace_user_tail (thn_lit_sshd _) hf
              · exact ts_fail_transfers hm hq5 (thn_lit_sudo _) (thn_lit_sshd _) hf
              · exact ts_fail_transfers hm hq5 (thn_lit_sudo _) (thn_lit_sshd _) hf
              · exact ts_fail_transfers hm hq5 (thn_lit_sshd _) (thn_lit_sshd _) hf
            simp only [hf5]
          | none =>
            exfalso
            rcases hrx with rfl | rfl | rfl | rfl | rfl
            · rw [hq1] at hm; cases hm
            · rw [hq2] at hm; cases hm
            · rw [hq3] at hm; cases hm
            · rw [hq4] at hm; cases hm
            · rw [hq5] at hm; cases hm

theorem claim_C7_witness : parse_line 2024 exLineBadDate initStats = (initStats, none) :=
  claim_C7 2024 exLineBadDate initStats
    ⟨hydra_attack_regex, by simp,
     [(1, L "Feb"), (2, L "30"), (3, L "10:00:00"), (4, L "1"), (5, L "Failed"),
      (6, L "a"), (7, L "1.2.3.4"), (8, L "22")],
     by decide, by decide⟩

theorem user_caps_shape {line : List Char} {m} (h : matchElems user_regex line = some m) :
    ∃ t1 t2 t3 s pid dtl, m = [(1, t1), (2, t2), (3, t3), (4, s), (5, pid), (6, dtl)] ∧
      s ∈ [L "useradd", L "userdel", L "passwd", L "su", L "sudo"] := by
  obtain ⟨body, tl, -, -, hm⟩ := matchElems_sound h
  obtain ⟨b1, b2, c1, c2, -, rfl, hp, htm⟩ := MSeg_append_inv hm
  obtain ⟨t1, ws1, t2, ws2, t3, ws3, ws4, -, rfl, -⟩ := MSeg_pre_inv hp
  obtain ⟨s, pid, ws5, dtl, -, rfl, hsmem, -⟩ := user_tail_inv htm
  exact ⟨t1, t2, t3, s, pid, dtl, rfl, hsmem⟩

/-- The grammar-2 `su` classification: the line is recognized,
`user_changes` is incremented, yet no event is returned. -/
theorem su_parse {y : Nat} {line : List Char} {m} {ts : Timestamp} (st : Stats)
    (h1 : matchElems user_regex line = some m)
    (h2 : grp m 4 = L "su")
    (h3 : matchElems command_regex line = none)
    (h4 : normTimestamp y (grp m 1) (grp m 2) (grp m 3) = some ts) :
    parse_line y line st = ({st with user_changes := st.user_changes + 1}, none) := by
  simp only [parse_line, h3, h1, h4, h2]
  rw [if_neg (by decide), if_neg (by decide), if_neg (by decide), if_neg (by decide)]
  exact su_falls_through y _ h1 h2

/-- C4: an input line matching `user_regex` with process name `su` (and
not matching grammar 1), with a valid timestamp, increments
`user_changes` yet produces no event; consequently inserting such a
line anywhere in a run changes neither the collected entry list (so the
line is absent from the report body) nor `total_entries`. -/
theorem claim_C4 (y : Nat) (line : List Char) (st : Stats) (m : List (Nat × List Char))
    (ts : Timestamp)
    (h1 : matchElems user_regex line = some m)
    (h2 : grp m 4 = L "su")
    (h3 : matchElems command_regex line = none)
    (h4 : normTimestamp y (grp m 1) (grp m 2) (grp m 3) = some ts) :
    parse_line y line st = ({st with user_changes := st.user_changes + 1}, none) ∧
    (∀ raw pre post, pyStrip raw = line →
      (runLines y (pre ++ raw :: post)).2 = (runLines y (pre ++ post)).2 ∧
      (runLines y (pre ++ raw :: post)).1.total_entries =
        (runLines y (pre ++ post)).1.total_entries) := by
  refine ⟨su_parse st h1 h2 h3 h4, ?_⟩
  intro raw pre post hstrip
  have hevraw : lineEvent y raw = none := by
    unfold lineEvent
    rw [hstrip, su_parse initStats h1 h2 h3 h4]
  constructor
  · rw [runLines_snd, runLines_snd, List.filterMap_append, List.filterMap_append,
      List.filterMap_cons, hevraw]
  · rw [runLines_total, runLines_total, List.filterMap_append, List.filterMap_append,
      List.filterMap_cons, hevraw]

theorem claim_C4_witness :
    parse_line 2024 exLineSu initStats =
      ({initStats with user_changes := initStats.user_changes + 1}, none) ∧
    (runLines 2024 ([exLineHydraFailed] ++ exLineSu :: [])).2 =
      (runLines 2024 ([exLineHydraFailed] ++ [])).2 := by
  have h := claim_C4 2024 exLineSu initStats
    [(1, L "Jan"), (2, L "2"), (3, L "03:04:05"), (4, L "su"), (5, L "10"),
     (6, L "pam_unix(su:session): session opened for user root")]
    ⟨2024, 1, 2, 3, 4, 5⟩ (by decide) (by decide) (by decide) (by decide)
  exact ⟨h.1, (h.2 exLineSu [exLineHydraFailed] [] (by decide)).1⟩

/-- C3 as stated is false on the code: the `su` sub-case of grammar 2
increments `user_changes` for a line that produces no event (so the sum
of category counters is not attributable to event lines), and the
failed-ssh-login case increments two category counters
(`failed_logins` and `potential_attacks`) for one line, outside the
grammar-2 sudo sub-case. -/
theorem claim_C3_counterexample :
    (runLines 2024 [exLineSu]).1.user_changes = 1 ∧
    (runLines 2024 [exLineSu]).2 = [] ∧
    (runLines 2024 [exLineSu]).1.total_entries = 0 ∧
    (runLines 2024 [exLineHydraFailed]).2.length = 1 ∧
    (runLines 2024 [exLineHydraFailed]).1.failed_logins = 1 ∧
    (runLines 2024 [exLineHydraFailed]).1.potential_attacks = 1 := by
  refine ⟨?_, ?_, ?_, ?_, ?_, ?_⟩ <;> decide

/-- C3 amended: `total_entries` equals the number of produced events,
and each line's effect on the category counters is one of the
classifier's cases: no change; `commands`; `user_changes`;
`user_changes` plus `sudo_commands` (grammar 2's sudo sub-case);
`user_changes` alone with no event (grammar 2's `su` sub-case);
`sudo_commands`; `failed_sudo` plus `potential_attacks`;
`failed_logins` plus `potential_attacks`; or `successful_logins` —
so one line can increment two category counters also in the failed-ssh
case, and one counter increment (`su`) belongs to a line that produces
no event. -/
theorem claim_C3_amended :
    (∀ (y : Nat) (lines : List (List Char)),
      (runLines y lines).1.total_entries = (runLines y lines).2.length) ∧
    (∀ (y : Nat) (line : List Char) (st : Stats),
      (parse_line y line st = (st, none)) ∨
      (∃ e, parse_line y line st = ({st with commands := st.commands + 1}, some e)) ∨
      (∃ e, parse_line y line st = ({st with user_changes := st.user_changes + 1}, some e)) ∨
      (∃ e, parse_line y line st =
        ({st with user_changes := st.user_changes + 1,
                  sudo_commands := st.sudo_commands + 1}, some e)) ∨
      (parse_line y line st = ({st with user_changes := st.user_changes + 1}, none)) ∨
      (∃ e, parse_line y line st = ({st with sudo_commands := st.sudo_commands + 1}, some e)) ∨
      (∃ e, parse_line y line st =
        ({st with failed_sudo := st.failed_sudo + 1,
                  potential_attacks := st.potential_attacks + 1}, some e)) ∨
      (∃ e, parse_line y line st =
        ({st with failed_logins := st.failed_logins + 1,
                  potential_attacks := st.potential_attacks + 1}, some e)) ∨
      (∃ e, parse_line y line st =
        ({st with successful_logins := st.successful_logins + 1}, some e))) := by
  constructor
  · intro y lines
    rw [runLines_total, runLines_snd]
  · intro y line st
    cases hq1 : matchElems command_regex line with
    | some m1 =>
      cases hts : normTimestamp y (grp m1 1) (grp m1 2) (grp m1 3) with
      | none =>
        exact Or.inl (by simp only [parse_line, hq1, hts])
      | some ts =>
        refine Or.inr (Or.inl ⟨(ts, commandLogMsg ts (grp m1 5) (grp m1 6)), ?_⟩)
        simp only [parse_line, hq1, hts]
    | none =>
      cases hq2 : matchElems user_regex line with
      | some m2 =>
        cases hts : normTimestamp y (grp m2 1) (grp m2 2) (grp m2 3) with
        | none =>
          exact Or.inl (by simp only [parse_line, hq1, hq2, hts])
        | some ts =>
          by_cases ha : grp m2 4 = L "useradd"
          · refine Or.inr (Or.inr (Or.inl ⟨(ts, userAddMsg ts (grp m2 6)), ?_⟩))
            simp only [parse_line, hq1, hq2, hts]
            rw [if_pos ha]
          · by_cases hb : grp m2 4 = L "userdel"
            · refine Or.inr (Or.inr (Or.inl ⟨(ts, userDelMsg ts (grp m2 6)), ?_⟩))
              simp only [parse_line, hq1, hq2, hts]
              rw [if_neg ha, if_pos hb]
            · by_cases hc : grp m2 4 = L "passwd"
              · refine Or.inr (Or.inr (Or.inl ⟨(ts, passwdMsg ts (grp m2 6)), ?_⟩))
                simp only [parse_line, hq1, hq2, hts]
                rw [if_neg ha, if_neg hb, if_pos hc]
              · by_cases hd : grp m2 4 = L "sudo"
                · refine Or.inr (Or.inr (Or.inr (Or.inl ⟨(ts, sudoAlertMsg ts (grp m2 6)), ?_⟩)))
                  simp only [parse_line, hq1, hq2, hts]
                  rw [if_neg ha, if_neg hb, if_neg hc, if_pos hd]
                · obtain ⟨t1, t2, t3, s, pid, dtl, hm2, hsmem⟩ := user_caps_shape hq2
                  have hg4 : grp m2 4 = s := by rw [hm2]; rfl
                  simp only [List.mem_cons, List.not_mem_nil, or_false] at hsmem
                  rcases hsmem with rfl | rfl | rfl | rfl | rfl
                  · exact absurd hg4 ha
                  · exact absurd hg4 hb
                  · exact absurd hg4 hc
                  · exact Or.inr (Or.inr (Or.inr (Or.inr (Or.inl
                      (su_parse st hq2 hg4 hq1 hts)))))
                  · exact absurd hg4 hd
      | none =>
        cases hq3 : matchElems sudo_command_regex line with
        | some m3 =>
          cases hts : normTimestamp y (grp m3 1) (grp m3 2) (grp m3 3) with
          | none =>
            exact Or.inl (by simp only [parse_line, hq1, hq2, trySudoCmd, hq3, hts])
          | some ts =>
            refine Or.inr (Or.inr (Or.inr (Or.inr (Or.inr (Or.inl
              ⟨(ts, sudoCmdMsg ts (grp m3 5) (grp m3 6)), ?_⟩)))))
            simp only [parse_line, hq1, hq2, trySudoCmd, hq3, hts]
        | none =>
          cases hq4 : matchElems sudo_failure_regex line with
          | some m4 =>
            cases hts : normTimestamp y (grp m4 1) (grp m4 2) (grp m4 3) with
            | none =>
              exact Or.inl
                (by simp only [parse_line, hq1, hq2, trySudoCmd, hq3, tryFailedSudo, hq4, hts])
            | some ts =>
              refine Or.inr (Or.inr (Or.inr (Or.inr (Or.inr (Or.inr (Or.inl
                ⟨(ts, failedSudoMsg ts (grp m4 5)), ?_⟩))))))
              simp only [parse_line, hq1, hq2, trySudoCmd, hq3, tryFailedSudo, hq4, hts]
          | none =>
            cases hq5 : matchElems hydra_attack_regex line with
            | some m5 =>
              cases hts : normTimestamp y (grp m5 1) (grp m5 2) (grp m5 3) with
              | none =>
                exact Or.inl (by simp only [parse_line, hq1, hq2, trySudoCmd, hq3,
                  tryFailedSudo, hq4, tryHydra, hq5, hts])
              | some ts =>
                by_cases hF : grp m5 5 = L "Failed"
                · refine Or.inr (Or.inr (Or.inr (Or.inr (Or.inr (Or.inr (Or.inr
                    (Or.inl ⟨(ts, hydraFailedMsg ts (grp m5 6) (grp m5 7) (grp m5 8)), ?_⟩)))))))
                  simp only [parse_line, hq1, hq2, trySudoCmd, hq3, tryFailedSudo, hq4,
                    tryHydra, hq5, hts]
                  rw [if_pos hF]
                · by_cases hA : grp m5 5 = L "Accepted"
                  · refine Or.inr (Or.inr (Or.inr (Or.inr (Or.inr (Or.inr (Or.inr (Or.inr
                      ⟨(ts, hydraOkMsg ts (grp m5 6) (grp m5 7) (grp m5 8)), ?_⟩)))))))
                    simp only [parse_line, hq1, hq2, trySudoCmd, hq3, tryFailedSudo, hq4,
                      tryHydra, hq5, hts]
                    rw [if_neg hF, if_pos hA]
                  · refine Or.inl ?_
                    simp only [parse_line, hq1, hq2, trySudoCmd, hq3, tryFailedSudo, hq4,
                      tryHydra, hq5, hts]
                    rw [if_neg hF, if_neg hA]
            | none =>
              exact Or.inl (by simp only [parse_line, hq1, hq2, trySudoCmd, hq3,
                tryFailedSudo, hq4, tryHydra, hq5])

/-
Flat inversion lemmas for single elements, used to take long grammar
tails apart.
-/

theorem MSeg_nil_inv {b : List Char} {c} (h : MSeg [] b c) : b = [] ∧ c = [] := by
  cases h
  exact ⟨rfl, rfl⟩

theorem MSeg_lit_inv {s : List Char} {es : List Elem} {b : List Char} {c}
    (h : MSeg (.lit s :: es) b c) : ∃ rest, b = s ++ rest ∧ MSeg es rest c := by
  cases h with
  | lit _ h => exact ⟨_, rfl, h⟩

theorem MSeg_many1_inv {cls : CharCls} {es : List Elem} {b : List Char} {c}
    (h : MSeg (.many1 cls :: es) b c) :
    ∃ run rest, b = run ++ rest ∧ allCls cls run ∧ run ≠ [] ∧ MSeg es rest c := by
  cases h with
  | many1 run hA hne h => exact ⟨run, _, rfl, hA, hne, h⟩

theorem MSeg_many0_inv {cls : CharCls} {es : List Elem} {b : List Char} {c}
    (h : MSeg (.many0 cls :: es) b c) :
    ∃ run rest, b = run ++ rest ∧ allCls cls run ∧ MSeg es rest c := by
  cases h with
  | many0 run hA h => exact ⟨run, _, rfl, hA, h⟩

theorem MSeg_cap1_inv {g : Nat} {cls : CharCls} {es : List Elem} {b : List Char} {c}
    (h : MSeg (.cap1 g cls :: es) b c) :
    ∃ run rest c2, b = run ++ rest ∧ c = (g, run) :: c2 ∧ allCls cls run ∧ run ≠ [] ∧
      MSeg es rest c2 := by
  cases h with
  | cap1 run hA hne h => exact ⟨run, _, _, rfl, rfl, hA, hne, h⟩

theorem MSeg_cap0_inv {g : Nat} {cls : CharCls} {es : List Elem} {b : List Char} {c}
    (h : MSeg (.cap0 g cls :: es) b c) :
    ∃ run rest c2, b = run ++ rest ∧ c = (g, run) :: c2 ∧ allCls cls run ∧
      MSeg es rest c2 := by
  cases h with
  | cap0 run hA h => exact ⟨run, _, _, rfl, rfl, hA, h⟩

theorem MSeg_time_inv {g : Nat} {es : List Elem} {b : List Char} {c}
    (h : MSeg (.time g :: es) b c) :
    ∃ t rest c2, b = t ++ rest ∧ c = (g, t) :: c2 ∧ isTimeStr t ∧ MSeg es rest c2 := by
  cases h with
  | time t ht h => exact ⟨t, _, _, rfl, rfl, ht, h⟩

theorem MSeg_alts_inv {g : Nat} {ss : List (List Char)} {es : List Elem} {b : List Char} {c}
    (h : MSeg (.alts g ss :: es) b c) :
    ∃ s rest c2, b = s ++ rest ∧ c = (g, s) :: c2 ∧ s ∈ ss ∧ MSeg es rest c2 := by
  cases h with
  | alts s hs h => exact ⟨s, _, _, rfl, rfl, hs, h⟩

theorem me_lit_neg {c d : Char} {s rest : List Char} {es : List Elem} (h : c ≠ d) :
    matchElems (.lit (c :: s) :: es) (d :: rest) = none := by
  have heq : matchElems (.lit (c :: s) :: es) (d :: rest) =
      (match dropLit (c :: s) (d :: rest) with
       | some r => matchElems es r
       | none => none) := rfl
  rw [heq, dropLit_ne_head h]

theorem grp6_5 (t1 t2 t3 p4 p5 p6 : List Char) :
    grp [(1, t1), (2, t2), (3, t3), (4, p4), (5, p5), (6, p6)] 5 = p5 := rfl

theorem grp6_6 (t1 t2 t3 p4 p5 p6 : List Char) :
    grp [(1, t1), (2, t2), (3, t3), (4, p4), (5, p5), (6, p6)] 6 = p6 := rfl

theorem grp6_1 (t1 t2 t3 p4 p5 p6 : List Char) :
    grp [(1, t1), (2, t2), (3, t3), (4, p4), (5, p5), (6, p6)] 1 = t1 := rfl

theorem grp6_2 (t1 t2 t3 p4 p5 p6 : List Char) :
    grp [(1, t1), (2, t2), (3, t3), (4, p4), (5, p5), (6, p6)] 2 = t2 := rfl

theorem grp6_3 (t1 t2 t3 p4 p5 p6 : List Char) :
    grp [(1, t1), (2, t2), (3, t3), (4, p4), (5, p5), (6, p6)] 3 = t3 := rfl

theorem grp6_4 (t1 t2 t3 p4 p5 p6 : List Char) :
    grp [(1, t1), (2, t2), (3, t3), (4, p4), (5, p5), (6, p6)] 4 = p4 := rfl

/-- A literal block after a greedy run is a stopping boundary when its
first character fails the class. -/
theorem headFails_lit {p : Char → Bool} {c : Char} {s x : List Char} (h : p c = false) :
    headFails p ((c :: s) ++ x) := h

/-- Greedy evaluation of `command_regex` (grammar 1) on a line of
grammar 3's shape (`USER=root`): it matches, with the same six
captures. -/
theorem cmd_eval
    {t1 ws1 t2 ws2 t3 ws3 ws4 pid w5 utok w6 w7 tty w8 w9 pwd w10 w11 w12 w13 cmd tl :
      List Char}
    (hA1 : allCls .nonspace t1) (hne1 : t1 ≠ []) (hAw1 : allCls .space ws1) (hnw1 : ws1 ≠ [])
    (hA2 : allCls .digit t2) (hne2 : t2 ≠ []) (hAw2 : allCls .space ws2) (hnw2 : ws2 ≠ [])
    (hT3 : isTimeStr t3) (hAw3 : allCls .space ws3) (hnw3 : ws3 ≠ [])
    (hAw4 : allCls .space ws4) (hnw4 : ws4 ≠ [])
    (hApid : allCls .digit pid) (hnpid : pid ≠ [])
    (hAw5 : allCls .space w5) (hnw5 : w5 ≠ [])
    (hAu : allCls .nonspace utok) (hnu : utok ≠ [])
    (hAw6 : allCls .space w6) (hnw6 : w6 ≠ [])
    (hAw7 : allCls .space w7) (hnw7 : w7 ≠ [])
    (hAtty : allCls .digit tty) (hntty : tty ≠ [])
    (hAw8 : allCls .space w8) (hnw8 : w8 ≠ [])
    (hAw9 : allCls .space w9) (hnw9 : w9 ≠ [])
    (hApwd : allCls .nonspace pwd) (hnpwd : pwd ≠ [])
    (hAw10 : allCls .space w10) (hnw10 : w10 ≠ [])
    (hAw11 : allCls .space w11) (hnw11 : w11 ≠ [])
    (hAw12 : allCls .space w12) (hnw12 : w12 ≠ [])
    (hAw13 : allCls .space w13) (hnw13 : w13 ≠ [])
    (hAcmd : allCls .dot cmd) (hncmd : cmd ≠ [])
    (htl : tl = [] ∨ tl = ['\n']) :
    matchElems command_regex
      (t1 ++ (ws1 ++ (t2 ++ (ws2 ++ (t3 ++ (ws3 ++ (L "server" ++ (ws4 ++ (L "sudo[" ++
        (pid ++ (L "]:" ++ (w5 ++ (utok ++ (w6 ++ (L ":" ++ (w7 ++ (L "TTY=pts/" ++
        (tty ++ (w8 ++ (L ";" ++ (w9 ++ (L "PWD=" ++ (pwd ++ (w10 ++ (L ";" ++
        (w11 ++ (L "USER=root" ++ (w12 ++ (L ";" ++ (w13 ++ (L "COMMAND=" ++
        (cmd ++ tl)))))))))))))))))))))))))))))))) =
      some [(1, t1), (2, t2), (3, t3), (4, pid), (5, utok), (6, cmd)] := by
  simp only [command_regex, preElems, List.cons_append, List.nil_append]
  refine me_cap1_pos hA1 hne1 (stop_nonspace_of_ws hAw1 hnw1) ?_
  refine me_many1_pos hAw1 hnw1 (stop_space_of_digits hA2 hne2) ?_
  refine me_cap1_pos hA2 hne2 (stop_digit_of_ws hAw2 hnw2) ?_
  refine me_many1_pos hAw2 hnw2 (stop_space_of_time hT3) ?_
  refine me_time_pos hT3 ?_
  refine me_many1_pos hAw3 hnw3 (stop_space_of_server _) ?_
  rw [me_lit_pos]
  refine me_many1_pos hAw4 hnw4 (headFails_lit (by decide)) ?_
  rw [me_lit_pos]
  refine me_cap1_pos hApid hnpid (headFails_lit (by decide)) ?_
  rw [me_lit_pos]
  refine me_many1_pos hAw5 hnw5 (stop_space_of_tok hAu hnu) ?_
  refine me_cap1_pos hAu hnu (stop_nonspace_of_ws hAw6 hnw6) ?_
  refine me_many1_pos hAw6 hnw6 (headFails_lit (by decide)) ?_
  rw [me_lit_pos]
  refine me_many1_pos hAw7 hnw7 (headFails_lit (by decide)) ?_
  rw [me_lit_pos]
  refine me_many1_pos hAtty hntty (stop_digit_of_ws hAw8 hnw8) ?_
  refine me_many1_pos hAw8 hnw8 (headFails_lit (by decide)) ?_
  rw [me_lit_pos]
  refine me_many1_pos hAw9 hnw9 (headFails_lit (by decide)) ?_
  rw [me_lit_pos]
  refine me_many1_pos hApwd hnpwd (stop_nonspace_of_ws hAw10 hnw10) ?_
  refine me_many1_pos hAw10 hnw10 (headFails_lit (by decide)) ?_
  rw [me_lit_pos]
  refine me_many1_pos hAw11 hnw11 (headFails_lit (by decide)) ?_
  rw [show (L "USER=root" : List Char) = L "USER=" ++ L "root" from rfl, List.append_assoc]
  rw [me_lit_pos]
  refine me_many1_pos (show allCls .nonspace (L "root") by unfold allCls; decide) (by decide)
    (stop_nonspace_of_ws hAw12 hnw12) ?_
  refine me_many1_pos hAw12 hnw12 (headFails_lit (by decide)) ?_
  rw [me_lit_pos]
  refine me_many1_pos hAw13 hnw13 (headFails_lit (by decide)) ?_
  rw [me_lit_pos]
  rcases htl with rfl | rfl
  · exact me_cap1_pos hAcmd hncmd True.intro rfl
  · exact me_cap1_pos hAcmd hncmd (headFails_cons (by decide)) rfl

/-- C2 as stated is false on the code: this line matches
`sudo_command_regex` (grammar 3, `USER=root`) and has a valid
timestamp, yet classification leaves `sudo_commands` at 0 — the line
is taken by `command_regex` (grammar 1) first, incrementing `commands`
instead. -/
theorem claim_C2_counterexample :
    matchElems sudo_command_regex exLineRootCmd =
      some [(1, L "Feb"), (2, L "2"), (3, L "09:00:00"), (4, L "42"), (5, L "bob"),
            (6, L "/usr/bin/apt update")] ∧
    (parse_line 2024 exLineRootCmd initStats).1.sudo_commands = 0 ∧
    (parse_line 2024 exLineRootCmd initStats).1.commands = 1 ∧
    (parse_line 2024 exLineRootCmd initStats).2 ≠ none := by
  refine ⟨by decide, by decide, by decide, by decide⟩

/-- C2 amended: every input line of grammar 3's shape (sudo command
with `USER=root`) whose timestamp normalizes is classified — but by
grammar 1, which matches every such line first: `commands` is
incremented, `sudo_commands` is left unchanged, and the event is the
grammar-1 Command Log message built from the same captures. -/
theorem claim_C2_amended (y : Nat) (line : List Char) (st : Stats)
    (m : List (Nat × List Char)) (ts : Timestamp)
    (h1 : matchElems sudo_command_regex line = some m)
    (hts : normTimestamp y (grp m 1) (grp m 2) (grp m 3) = some ts) :
    parse_line y line st =
      ({st with commands := st.commands + 1},
       some (ts, commandLogMsg ts (grp m 5) (grp m 6))) := by
  obtain ⟨body, tl, rfl, htl, hm⟩ := matchElems_sound h1
  obtain ⟨b1, b2, c1, c2, rfl, rfl, hp, htm⟩ := MSeg_append_inv hm
  obtain ⟨t1, ws1, t2, ws2, t3, ws3, ws4, rfl, rfl, hA1, hne1, hAw1, hnw1, hA2, hne2, hAw2,
    hnw2, hT3, hAw3, hnw3, hAw4, hnw4⟩ := MSeg_pre_inv hp
  obtain ⟨r1, hb1, htm1⟩ := MSeg_lit_inv htm
  subst hb1
  obtain ⟨pid, r2, cc2, hb2, hc2, hApid, hnpid, htm2⟩ := MSeg_cap1_inv htm1
  subst hb2
  subst hc2
  obtain ⟨r3, hb3, htm3⟩ := MSeg_lit_inv htm2
  subst hb3
  obtain ⟨w5, r4, hb4, hAw5, hnw5, htm4⟩ := MSeg_many1_inv htm3
  subst hb4
  obtain ⟨utok, r5, cc5, hb5, hc5, hAutok, hnutok, htm5⟩ := MSeg_cap1_inv htm4
  subst hb5
  subst hc5
  obtain ⟨w6, r6, hb6, hAw6, hnw6, htm6⟩ := MSeg_many1_inv htm5
  subst hb6
  obtain ⟨r7, hb7, htm7⟩ := MSeg_lit_inv htm6
  subst hb7
  obtain ⟨w7, r8, hb8, hAw7, hnw7, htm8⟩ := MSeg_many1_inv htm7
  subst hb8
  obtain ⟨r9, hb9, htm9⟩ := MSeg_lit_inv htm8
  subst hb9
  obtain ⟨tty, r10, hb10, hAtty, hntty, htm10⟩ := MSeg_many1_inv htm9
  subst hb10
  obtain ⟨w8, r11, hb11, hAw8, hnw8, htm11⟩ := MSeg_many1_inv htm10
  subst hb11
  obtain ⟨r12, hb12, htm12⟩ := MSeg_lit_inv htm11
  subst hb12
  obtain ⟨w9, r13, hb13, hAw9, hnw9, htm13⟩ := MSeg_many1_inv htm12
  subst hb13
  obtain ⟨r14, hb14, htm14⟩ := MSeg_lit_inv htm13
  subst hb14
  obtain ⟨pwd, r15, hb15, hApwd, hnpwd, htm15⟩ := MSeg_many1_inv htm14
  subst hb15
  obtain ⟨w10, r16, hb16, hAw10, hnw10, htm16⟩ := MSeg_many1_inv htm15
  subst hb16
  obtain ⟨r17, hb17, htm17⟩ := MSeg_lit_inv htm16
  subst hb17
  obtain ⟨w11, r18, hb18, hAw11, hnw11, htm18⟩ := MSeg_many1_inv htm17
  subst hb18
  obtain ⟨r19, hb19, htm19⟩ := MSeg_lit_inv htm18
  subst hb19
  obtain ⟨w12, r20, hb20, hAw12, hnw12, htm20⟩ := MSeg_many1_inv htm19
  subst hb20
  obtain ⟨r21, hb21, htm21⟩ := MSeg_lit_inv htm20
  subst hb21
  obtain ⟨w13, r22, hb22, hAw13, hnw13, htm22⟩ := MSeg_many1_inv htm21
  subst hb22
  obtain ⟨r23, hb23, htm23⟩ := MSeg_lit_inv htm22
  subst hb23
  obtain ⟨cmd, r24, cc24, hb24, hc24, hAcmd, hncmd, htm24⟩ := MSeg_cap1_inv htm23
  subst hb24
  subst hc24
  obtain ⟨hbn, hcn⟩ := MSeg_nil_inv htm24
  subst hbn
  subst hcn
  have hcmd0 := cmd_eval hA1 hne1 hAw1 hnw1 hA2 hne2 hAw2 hnw2 hT3 hAw3 hnw3 hAw4 hnw4
    hApid hnpid hAw5 hnw5 hAutok hnutok hAw6 hnw6 hAw7 hnw7 hAtty hntty hAw8 hnw8 hAw9 hnw9
    hApwd hnpwd hAw10 hnw10 hAw11 hnw11 hAw12 hnw12 hAw13 hnw13 hAcmd hncmd htl
  simp only [List.append_assoc, List.append_nil, List.cons_append, List.nil_append]
    at hcmd0 hts ⊢
  simp only [parse_line, hcmd0, hts]

theorem claim_C2_witness :
    parse_line 2024 exLineRootCmd initStats =
      ({initStats with commands := initStats.commands + 1},
       some (⟨2024, 2, 2, 9, 0, 0⟩,
         commandLogMsg ⟨2024, 2, 2, 9, 0, 0⟩
           (grp [(1, L "Feb"), (2, L "2"), (3, L "09:00:00"), (4, L "42"), (5, L "bob"),
                 (6, L "/usr/bin/apt update")] 5)
           (grp [(1, L "Feb"), (2, L "2"), (3, L "09:00:00"), (4, L "42"), (5, L "bob"),
                 (6, L "/usr/bin/apt update")] 6))) :=
  claim_C2_amended 2024 exLineRootCmd initStats
    [(1, L "Feb"), (2, L "2"), (3, L "09:00:00"), (4, L "42"), (5, L "bob"),
     (6, L "/usr/bin/apt update")]
    ⟨2024, 2, 2, 9, 0, 0⟩ (by decide) (by decide)

/-- A line matching `sudo_failure_regex` cannot match `command_regex`:
after the shared `sudo[<pid>]:` region the failure line has the token
`pam_unix(sudo:auth):` followed by `authentication`, where grammar 1
requires a lone `:` token. -/
theorem fail_no_command {line : List Char} {m} (h1 : matchElems sudo_failure_regex line = some m) :
    matchElems command_regex line = none := by
  cases hq : matchElems command_regex line with
  | none => rfl
  | some c' =>
    exfalso
    obtain ⟨t1, t2, t3, b2, cA, b2', cB, tl, tl', hc, hc', htm, htm', htl, htl', heq⟩ :=
      both_match_agree h1 hq (thn_lit_sudo _) (thn_lit_sudo _)
    obtain ⟨fr1, fb1, fhtm1⟩ := MSeg_lit_inv htm
    subst fb1
    obtain ⟨pidF, fr2, fcc2, fb2, fc2, hApidF, hnpidF, fhtm2⟩ := MSeg_cap1_inv fhtm1
    subst fb2
    subst fc2
    obtain ⟨fr3, fb3, fhtm3⟩ := MSeg_lit_inv fhtm2
    subst fb3
    obtain ⟨w5F, fr4, fb4, hAw5F, hnw5F, fhtm4⟩ := MSeg_many1_inv fhtm3
    subst fb4
    obtain ⟨fr5, fb5, fhtm5⟩ := MSeg_lit_inv fhtm4
    subst fb5
    obtain ⟨w6F, fr6, fb6, hAw6F, hnw6F, fhtm6⟩ := MSeg_many1_inv fhtm5
    subst fb6
    obtain ⟨fr7, fb7, fhtm7⟩ := MSeg_lit_inv fhtm6
    subst fb7
    obtain ⟨gr1, gb1, ghtm1⟩ := MSeg_lit_inv htm'
    subst gb1
    obtain ⟨pidC, gr2, gcc2, gb2, gc2, hApidC, hnpidC, ghtm2⟩ := MSeg_cap1_inv ghtm1
    subst gb2
    subst gc2
    obtain ⟨gr3, gb3, ghtm3⟩ := MSeg_lit_inv ghtm2
    subst gb3
    obtain ⟨w5C, gr4, gb4, hAw5C, hnw5C, ghtm4⟩ := MSeg_many1_inv ghtm3
    subst gb4
    obtain ⟨utok, gr5, gcc5, gb5, gc5, hAutok, hnutok, ghtm5⟩ := MSeg_cap1_inv ghtm4
    subst gb5
    subst gc5
    obtain ⟨w6C, gr6, gb6, hAw6C, hnw6C, ghtm6⟩ := MSeg_many1_inv ghtm5
    subst gb6
    obtain ⟨gr7, gb7, ghtm7⟩ := MSeg_lit_inv ghtm6
    subst gb7
    simp only [List.append_assoc] at heq
    have heq2 := List.append_cancel_left heq
    obtain ⟨hpid, heq3⟩ := run_uniq heq2 hApidF hApidC
      (headFails_lit (by decide)) (headFails_lit (by decide))
    have heq4 := List.append_cancel_left heq3
    obtain ⟨hw5, heq5⟩ := run_uniq heq4 hAw5F hAw5C
      (headFails_lit (by decide)) (stop_space_of_tok hAutok hnutok)
    obtain ⟨hpam, heq6⟩ := run_uniq heq5
      (show allCls .nonspace (L "pam_unix(sudo:auth):") by unfold allCls; decide) hAutok
      (stop_nonspace_of_ws hAw6F hnw6F) (stop_nonspace_of_ws hAw6C hnw6C)
    obtain ⟨hw6, heq7⟩ := run_uniq heq6 hAw6F hAw6C
      (headFails_lit (by decide)) (headFails_lit (by decide))
    rw [show (L "authentication" : List Char) = 'a' :: L "uthentication" from rfl,
        show (L ":" : List Char) = ':' :: ([] : List Char) from rfl] at heq7
    simp only [List.cons_append, List.nil_append] at heq7
    simp at heq7

/-- Greedy evaluation of `user_regex` (grammar 2) on a line of grammar
4's shape: the alternation picks `sudo` and `(.*)` captures the whole
PAM detail text. -/
theorem user_eval_on_fail
    {t1 ws1 t2 ws2 t3 ws3 ws4 pid w5 dtl tl : List Char}
    (hA1 : allCls .nonspace t1) (hne1 : t1 ≠ []) (hAw1 : allCls .space ws1) (hnw1 : ws1 ≠ [])
    (hA2 : allCls .digit t2) (hne2 : t2 ≠ []) (hAw2 : allCls .space ws2) (hnw2 : ws2 ≠ [])
    (hT3 : isTimeStr t3) (hAw3 : allCls .space ws3) (hnw3 : ws3 ≠ [])
    (hAw4 : allCls .space ws4) (hnw4 : ws4 ≠ [])
    (hApid : allCls .digit pid) (hnpid : pid ≠ [])
    (hAw5 : allCls .space w5) (hnw5 : w5 ≠ [])
    (hAdtl : allCls .dot dtl) (hhead : headFails (clsMatch .space) (dtl ++ tl))
    (htl : tl = [] ∨ tl = ['\n']) :
    matchElems user_regex
      (t1 ++ (ws1 ++ (t2 ++ (ws2 ++ (t3 ++ (ws3 ++ (L "server" ++ (ws4 ++ (L "sudo[" ++
        (pid ++ (L "]:" ++ (w5 ++ (dtl ++ tl))))))))))))) =
      some [(1, t1), (2, t2), (3, t3), (4, L "sudo"), (5, pid), (6, dtl)] := by
  simp only [user_regex, preElems, List.cons_append, List.nil_append]
  refine me_cap1_pos hA1 hne1 (stop_nonspace_of_ws hAw1 hnw1) ?_
  refine me_many1_pos hAw1 hnw1 (stop_space_of_digits hA2 hne2) ?_
  refine me_cap1_pos hA2 hne2 (stop_digit_of_ws hAw2 hnw2) ?_
  refine me_many1_pos hAw2 hnw2 (stop_space_of_time hT3) ?_
  refine me_time_pos hT3 ?_
  refine me_many1_pos hAw3 hnw3 (stop_space_of_server _) ?_
  rw [me_lit_pos]
  refine me_many1_pos hAw4 hnw4 (headFails_lit (by decide)) ?_
  rw [me_alts_skip (Or.inl (show dropLit (L "useradd")
    (L "sudo[" ++ (pid ++ (L "]:" ++ (w5 ++ (dtl ++ tl))))) = none from rfl))]
  rw [me_alts_skip (Or.inl (show dropLit (L "userdel")
    (L "sudo[" ++ (pid ++ (L "]:" ++ (w5 ++ (dtl ++ tl))))) = none from rfl))]
  rw [me_alts_skip (Or.inl (show dropLit (L "passwd")
    (L "sudo[" ++ (pid ++ (L "]:" ++ (w5 ++ (dtl ++ tl))))) = none from rfl))]
  rw [me_alts_skip (Or.inr ⟨'d' :: ('o' :: ('[' :: (pid ++ (L "]:" ++ (w5 ++ (dtl ++ tl)))))),
    show dropLit (L "su") (L "sudo[" ++ (pid ++ (L "]:" ++ (w5 ++ (dtl ++ tl))))) =
      some ('d' :: ('o' :: ('[' :: (pid ++ (L "]:" ++ (w5 ++ (dtl ++ tl))))))) from rfl,
    show matchElems
        [Elem.lit (L "["), Elem.cap1 5 .digit, Elem.lit (L "]:"), Elem.many1 .space,
         Elem.cap0 6 .dot]
        ('d' :: ('o' :: ('[' :: (pid ++ (L "]:" ++ (w5 ++ (dtl ++ tl))))))) = none
      from me_lit_neg (by decide)⟩)]
  refine me_alts_hit
    (show dropLit (L "sudo")
        (L "sudo[" ++ (pid ++ (L "]:" ++ (w5 ++ (dtl ++ tl))))) =
      some (L "[" ++ (pid ++ (L "]:" ++ (w5 ++ (dtl ++ tl))))) from rfl) ?_
  rw [me_lit_pos]
  refine me_cap1_pos hApid hnpid (headFails_lit (by decide)) ?_
  rw [me_lit_pos]
  refine me_many1_pos hAw5 hnw5 hhead ?_
  rcases htl with rfl | rfl
  · exact me_cap0_pos hAdtl True.intro rfl
  · exact me_cap0_pos hAdtl (headFails_cons (by decide)) rfl

/-- C1 counterexample: `exLineFailedSudo` matches grammar 4 (sudo
authentication failure), yet the analyzer leaves `failed_sudo` and
`potential_attacks` at 0 and instead counts it as a grammar-2 sudo
alert, incrementing `user_changes` and `sudo_commands`. -/
theorem claim_C1_counterexample :
    (matchElems sudo_failure_regex exLineFailedSudo).isSome = true ∧
    (parse_line 2024 exLineFailedSudo initStats).1.failed_sudo = 0 ∧
    (parse_line 2024 exLineFailedSudo initStats).1.potential_attacks = 0 ∧
    (parse_line 2024 exLineFailedSudo initStats).1.user_changes = 1 ∧
    (parse_line 2024 exLineFailedSudo initStats).1.sudo_commands = 1 ∧
    (parse_line 2024 exLineFailedSudo initStats).2 ≠ none := by
  refine ⟨by decide, by decide, by decide, by decide, by decide, by decide⟩

/-- C1 amended: every newline-free line of grammar 4's shape (sudo
authentication failure) whose timestamp normalizes is intercepted by
grammar 2's `sudo` alternative: `user_changes` and `sudo_commands` are
incremented (never `failed_sudo` or `potential_attacks`) and the event
is the sudo-alert message whose detail text is the PAM suffix of the
line. -/
theorem claim_C1_amended (y : Nat) (line : List Char) (st : Stats)
    (m : List (Nat × List Char)) (ts : Timestamp)
    (h1 : matchElems sudo_failure_regex line = some m)
    (hnl : '\n' ∉ line)
    (hts : normTimestamp y (grp m 1) (grp m 2) (grp m 3) = some ts) :
    ∃ dtl, parse_line y line st =
      ({st with user_changes := st.user_changes + 1,
                sudo_commands := st.sudo_commands + 1},
       some (ts, sudoAlertMsg ts dtl)) := by
  have hcn0 : matchElems command_regex line = none := fail_no_command h1
  obtain ⟨body, tl, rfl, htl, hm⟩ := matchElems_sound h1
  have htl0 : tl = [] := by
    rcases htl with rfl | rfl
    · rfl
    · exact absurd (by simp) hnl
  subst htl0
  obtain ⟨b1, b2, c1, c2, rfl, rfl, hp, htm⟩ := MSeg_append_inv hm
  obtain ⟨t1, ws1, t2, ws2, t3, ws3, ws4, rfl, rfl, hA1, hne1, hAw1, hnw1, hA2, hne2, hAw2,
    hnw2, hT3, hAw3, hnw3, hAw4, hnw4⟩ := MSeg_pre_inv hp
  obtain ⟨r1, hb1, htm1⟩ := MSeg_lit_inv htm
  subst hb1
  obtain ⟨pid, r2, cc2, hb2, hc2, hApid, hnpid, htm2⟩ := MSeg_cap1_inv htm1
  subst hb2
  subst hc2
  obtain ⟨r3, hb3, htm3⟩ := MSeg_lit_inv htm2
  subst hb3
  obtain ⟨w5, r4, hb4, hAw5, hnw5, htm4⟩ := MSeg_many1_inv htm3
  subst hb4
  obtain ⟨r5, hb5, htm5⟩ := MSeg_lit_inv htm4
  subst hb5
  obtain ⟨w6, r6, hb6, hAw6, hnw6, htm6⟩ := MSeg_many1_inv htm5
  subst hb6
  obtain ⟨r7, hb7, htm7⟩ := MSeg_lit_inv htm6
  subst hb7
  have hAdtl : allCls .dot (L "pam_unix(sudo:auth):" ++ (w6 ++ (L "authentication" ++ r7))) := by
    intro c hc
    simp only [clsMatch, bne_iff_ne, ne_eq]
    intro hh
    subst hh
    apply hnl
    simp only [List.mem_append] at hc
    simp only [List.append_nil, List.mem_append]
    tauto
  have hhead : headFails (clsMatch .space)
      ((L "pam_unix(sudo:auth):" ++ (w6 ++ (L "authentication" ++ r7))) ++ []) :=
    headFails_lit (by decide)
  have huser := user_eval_on_fail hA1 hne1 hAw1 hnw1 hA2 hne2 hAw2 hnw2 hT3 hAw3 hnw3
    hAw4 hnw4 hApid hnpid hAw5 hnw5 hAdtl hhead (Or.inl rfl)
  simp only [grp_pre1, grp_pre2, grp_pre3] at hts
  simp only [List.append_assoc, List.append_nil, List.cons_append, List.nil_append]
    at hcn0 huser ⊢
  simp only [parse_line, hcn0, huser, grp6_1, grp6_2, grp6_3, grp6_4, grp6_6, hts]
  rw [if_neg (by decide), if_neg (by decide), if_neg (by decide)]
  exact ⟨_, rfl⟩

theorem claim_C1_witness :
    ∃ dtl, parse_line 2024 exLineFailedSudo initStats =
      ({initStats with user_changes := initStats.user_changes + 1,
                       sudo_commands := initStats.sudo_commands + 1},
       some (⟨2024, 3, 3, 8, 0, 0⟩, sudoAlertMsg ⟨2024, 3, 3, 8, 0, 0⟩ dtl)) :=
  claim_C1_amended 2024 exLineFailedSudo initStats
    [(1, L "Mar"), (2, L "3"), (3, L "08:00:00"), (4, L "77"), (5, L "bob")]
    ⟨2024, 3, 3, 8, 0, 0⟩ (by decide) (by decide) (by decide)

end LogAnalyzer
